import Mathlib

/-!
Verification development for the statistic bot's `StatRecorder`
(`bots/sbot_stat.py`).  The Python code is shallowly embedded: every
function below mirrors the source routine named in its doc comment.
Python floats (epoch timestamps, response times) are modelled as
rationals; Python `dict`s whose insertion order matters are modelled as
association lists; Python `set`s are modelled as duplicate-free lists
built by insert-if-absent (claims about them are stated up to set
membership, never up to order).  Python `assert` failures and type
errors surface as `Except.error`, matching the `try/except` in the
worker loop.
-/

namespace StatBot

/-- Local wall-clock breakdown of an epoch timestamp. `time.localtime`
depends on the host timezone, so it is passed around as a parameter
`localtime : ℚ → LocalTime`. -/
structure LocalTime where
  tm_year : Nat
  tm_mon : Nat
  tm_mday : Nat
  tm_hour : Nat
  tm_min : Nat
deriving DecidableEq

/-- `two_digits` (line 130): zero-pad a value below 10. -/
def two_digits (value : Nat) : String :=
  if value < 10 then "0" ++ toString value else toString value

/-- `parse_time` (line 137): year/month/day/hour/minute strings of the
local time of `msg_time`. -/
def parse_time (localtime : ℚ → LocalTime) (msg_time : ℚ) :
    String × String × String × String × String :=
  let t := localtime msg_time
  (toString t.tm_year, two_digits t.tm_mon, two_digits t.tm_mday,
    two_digits t.tm_hour, two_digits t.tm_min)

/-- The `[statistic]` configuration section: the three path templates. -/
structure StatConfig where
  users_log : Option String
  stats_log : Option String
  speeds_log : Option String
deriving DecidableEq

/-- `config.get_string(section='statistic', option=...)`. -/
def configOption (c : StatConfig) : String → Option String
  | "users_log" => c.users_log
  | "stats_log" => c.stats_log
  | "speeds_log" => c.speeds_log
  | _ => none

/-- `StatRecorder._get_path` (lines 169-173): look the template up and
substitute the date; a missing template fails the
`assert temp is not None` check with an `AssertionError`. -/
def get_path (localtime : ℚ → LocalTime) (c : StatConfig) (option : String)
    (msg_time : ℚ) : Except String String :=
  match configOption c option with
  | none => .error "AssertionError: failed to get log path template"
  | some temp =>
    let p := parse_time localtime msg_time
    .ok (((temp.replace "{yyyy}" p.1).replace "{mm}" p.2.1).replace "{dd}" p.2.2.1)

/-- The minute tag `'%s-%s-%s %s:%s'` (line 190). -/
def make_tag (p : String × String × String × String × String) : String :=
  p.1 ++ "-" ++ p.2.1 ++ "-" ++ p.2.2.1 ++ " " ++ p.2.2.2.1 ++ ":" ++ p.2.2.2.2

/-- Association-list lookup (Python `dict.get`). -/
def alook {β : Type} : List (String × β) → String → Option β
  | [], _ => none
  | (k, v) :: rest, key => if k = key then some v else alook rest key

/-- Association-list update (Python `dict[key] = value`), appending a
fresh key at the end like Python's insertion-ordered dicts. -/
def aset {β : Type} : List (String × β) → String → β → List (String × β)
  | [], key, v => [(key, v)]
  | (k, w) :: rest, key, v =>
      if k = key then (k, v) :: rest else (k, w) :: aset rest key v

/-- The JSON documents on disk: path ↦ (minute tag ↦ stored items). -/
abbrev Store (α : Type) := List (String × List (String × List α))

/-! ### User records and the `_save_users` merge -/

/-- A working-set element: `(userId, ip-or-null)` (line 193). -/
abbrev UPair := String × Option String

/-- The `IP` field of a stored user item: a list of strings or a single
string (both shapes occur on disk, lines 199-205). -/
inductive IPField
  | ipList (ips : List String)
  | ipStr (ip : String)
deriving DecidableEq

/-- A stored user item: a dict `{U:…, IP:…}` (possibly missing the `IP`
key) or a legacy bare user-id string (lines 196-209). -/
inductive UserItem
  | dict (uid : String) (ip : Option IPField)
  | legacy (uid : String)
deriving DecidableEq

/-- The `IP` value of an incoming user entry: a single string is the
documented shape; a list is also representable in the payload. -/
inductive NewIP
  | s (ip : String)
  | l (ips : List String)
deriving DecidableEq

/-- An incoming user entry of a `users` record: a dict `{U:…, IP:…}`
(possibly without `IP`) or a legacy bare user-id string (lines 216-224). -/
inductive NewUserItem
  | dict (uid : String) (ip : Option NewIP)
  | legacy (uid : String)
deriving DecidableEq

/-- `records.add(pair)`: Python set insertion, modelled as append-if-absent. -/
def insertPair (rs : List UPair) (p : UPair) : List UPair :=
  if p ∈ rs then rs else rs ++ [p]

/-- Expansion of one *existing* stored item into working-set pairs
(lines 195-214): a multi-IP entry gives one pair per distinct IP, an
entry whose IP set is empty gives `(uid, none)`; a dict without the `IP`
key fails `assert isinstance(ips, str)`. -/
def expandStored : UserItem → Except String (List UPair)
  | .legacy uid => .ok [(uid, none)]
  | .dict _ none => .error "AssertionError: IP error"
  | .dict uid (some (.ipStr ip)) => .ok [(uid, some ip)]
  | .dict uid (some (.ipList ips)) =>
      let s := ips.dedup
      .ok (if s.isEmpty then [(uid, none)] else s.map (fun ip => (uid, some ip)))

/-- Loop of lines 194-214 over the existing array, accumulating the
working set `records`. -/
def readRecordsAux (rs : List UPair) : List UserItem → Except String (List UPair)
  | [] => .ok rs
  | it :: rest =>
      match expandStored it with
      | .error e => .error e
      | .ok ps => readRecordsAux (ps.foldl insertPair rs) rest

/-- Working set built from the existing stored array (lines 193-214). -/
def readRecords (array : List UserItem) : Except String (List UPair) :=
  readRecordsAux [] array

/-- `container.get(log_tag)` is `None` when the tag is absent (line 191). -/
def readExisting : Option (List UserItem) → Except String (List UPair)
  | none => .ok []
  | some a => readRecords a

/-- The single pair contributed by one *incoming* entry (lines 216-224);
a list-valued `IP` makes the pair unhashable, so `records.add` raises
`TypeError`. -/
def newPair : NewUserItem → Except String UPair
  | .dict uid (some (.s ip)) => .ok (uid, some ip)
  | .dict _ (some (.l _)) => .error "TypeError: unhashable type: list"
  | .dict uid none => .ok (uid, none)
  | .legacy uid => .ok (uid, none)

/-- Loop of lines 216-224 adding the incoming entries to the working set. -/
def addNewUsers (rs : List UPair) : List NewUserItem → Except String (List UPair)
  | [] => .ok rs
  | it :: rest =>
      match newPair it with
      | .error e => .error e
      | .ok p => addNewUsers (insertPair rs p) rest

/-- `{userId ↦ IP set}` regrouping table (line 226). -/
abbrev Table := List (String × List String)

/-- `ips.add(ip)`: set insertion into one user's IP set. -/
def insertIP (ips : List String) (ip : String) : List String :=
  if ip ∈ ips then ips else ips ++ [ip]

/-- One step of the regrouping loop (lines 227-235): fetch or create the
user's IP set, then add the pair's IP when it is not null. -/
def addPair : Table → UPair → Table
  | [], (uid, ip) =>
      [(uid, match ip with | none => [] | some i => [i])]
  | (u, ips) :: rest, (uid, ip) =>
      if u = uid then
        (u, match ip with | none => ips | some i => insertIP ips i) :: rest
      else
        (u, ips) :: addPair rest (uid, ip)

/-- Collapse the working set back into `{userId ↦ IP set}` (lines 226-235). -/
def buildTable (rs : List UPair) : Table :=
  rs.foldl addPair []

/-- Convert the table back to the stored array shape
`{'U': uid, 'IP': list(ips)}` (lines 237-244). -/
def tableToArray (t : Table) : List UserItem :=
  t.map (fun e => .dict e.1 (some (.ipList e.2)))

/-- The per-tag core of `StatRecorder._save_users` (lines 191-245):
read-merge-regroup for one minute tag.  `array?` is the existing stored
array for the tag (`None` when absent), `users` the incoming entry list
(`None` when the payload lacks the key, which makes the `for` loop raise
`TypeError`). -/
def save_users_tag (array? : Option (List UserItem))
    (users : Option (List NewUserItem)) : Except String (List UserItem) :=
  match readExisting array? with
  | .error e => .error e
  | .ok rs =>
      match users with
      | none => .error "TypeError: NoneType object is not iterable"
      | some us =>
          match addNewUsers rs us with
          | .error e => .error e
          | .ok rs2 => .ok (tableToArray (buildTable rs2))

/-- `StatRecorder._save_users` (lines 184-247): resolve the path, read
the shard document, merge the tag's array, write the document back. -/
def save_users (localtime : ℚ → LocalTime) (c : StatConfig)
    (store : Store UserItem) (msg_time : ℚ)
    (users : Option (List NewUserItem)) : Except String (Store UserItem) :=
  match get_path localtime c "users_log" msg_time with
  | .error e => .error e
  | .ok log_path =>
      let container := (alook store log_path).getD []
      let log_tag := make_tag (parse_time localtime msg_time)
      match save_users_tag (alook container log_tag) users with
      | .error e => .error e
      | .ok newArray => .ok (aset store log_path (aset container log_tag newArray))

/-! ### Stats records -/

/-- An opaque stat counter item `{S:…, T:…, C:…}`, appended verbatim. -/
structure StatItem where
  S : Option Int
  T : Option Int
  C : Option Int
deriving DecidableEq

/-- `StatRecorder._save_stats` (lines 249-264): append the incoming
entries verbatim to the tag's list. -/
def save_stats (localtime : ℚ → LocalTime) (c : StatConfig)
    (store : Store StatItem) (msg_time : ℚ)
    (stats : Option (List StatItem)) : Except String (Store StatItem) :=
  match get_path localtime c "stats_log" msg_time with
  | .error e => .error e
  | .ok log_path =>
      let container := (alook store log_path).getD []
      let log_tag := make_tag (parse_time localtime msg_time)
      let array := (alook container log_tag).getD []
      match stats with
      | none => .error "TypeError: NoneType object is not iterable"
      | some ss => .ok (aset store log_path (aset container log_tag (array ++ ss)))

/-! ### Speed records -/

/-- A station entry of an incoming `speeds` record. -/
structure Station where
  host : String
  port : Int
  response_time : Option ℚ
deriving DecidableEq

/-- The stored `client` field: a string `"host:port"` as written by this
code, or a legacy list shape tolerated on read (lines 357-360). -/
inductive ClientV
  | str (s : String)
  | list (l : List String)
deriving DecidableEq

/-- A stored speeds item (lines 282-289). -/
structure SpeedStored where
  U : Option String
  provider : Option String
  station : Option String
  client : Option ClientV
  response_time : Option ℚ
deriving DecidableEq

/-- `StatRecorder._save_speeds` (lines 266-292): one stored item per
station entry, appended verbatim. -/
def save_speeds (localtime : ℚ → LocalTime) (c : StatConfig)
    (store : Store SpeedStored) (msg_time : ℚ) (sender provider : Option String)
    (stations : Option (List Station)) (client : Option String) :
    Except String (Store SpeedStored) :=
  match get_path localtime c "speeds_log" msg_time with
  | .error e => .error e
  | .ok log_path =>
      let container := (alook store log_path).getD []
      let log_tag := make_tag (parse_time localtime msg_time)
      let array := (alook container log_tag).getD []
      match stations with
      | none => .error "TypeError: NoneType object is not iterable"
      | some srvs =>
          let items := srvs.map (fun srv =>
            SpeedStored.mk sender provider
              (some (srv.host ++ ":" ++ toString srv.port))
              (client.map .str) srv.response_time)
          .ok (aset store log_path (aset container log_tag (array ++ items)))

/-! ### `get_users` -/

/-- How `get_users` (lines 304-335) views one stored item: its user id
and the IPs to union in (a string IP counts as one IP, a missing or
non-list non-string IP contributes nothing). -/
def itemView : UserItem → String × List String
  | .dict uid none => (uid, [])
  | .dict uid (some (.ipStr ip)) => (uid, [ip])
  | .dict uid (some (.ipList ips)) => (uid, ips)
  | .legacy uid => (uid, [])

/-- Seek the user's running result entry, creating it with an empty IP
set when absent, and union the item's IPs in (lines 315-335). -/
def addUserIps : List (String × List String) → String → List String →
    List (String × List String)
  | [], uid, ips => [(uid, ips.foldl insertIP [])]
  | (u, uips) :: rest, uid, ips =>
      if u = uid then (u, ips.foldl insertIP uips) :: rest
      else (u, uips) :: addUserIps rest uid ips

/-- Fold one stored item into the running `get_users` result. -/
def getUsersStep (users : List (String × List String)) (item : UserItem) :
    List (String × List String) :=
  addUserIps users (itemView item).1 (itemView item).2

/-- `StatRecorder.get_users` (lines 294-336) given the parsed shard
document: fold every tag's items into a `{userId ↦ IP set}` list. -/
def get_users (container : List (String × List UserItem)) :
    List (String × List String) :=
  container.foldl (fun users entry => entry.2.foldl getUsersStep users) []

/-! ### `get_speeds` -/

/-- One aggregation bucket of `get_speeds` (lines 376-380); the `U` and
`provider` keys start absent and are pinned later (lines 382-385). -/
structure SpeedResult where
  station : Option String
  client_ip : Option String
  U : Option String
  provider : Option String
  rt : List ℚ
deriving DecidableEq

/-- The bucket-matching predicate of lines 364-371, in the source's
continue-on-mismatch shape. -/
def speedMatch (res : SpeedResult) (station client provider sender : Option String) :
    Bool :=
  if res.station ≠ station then false
  else if res.client_ip ≠ client then false
  else if res.provider ≠ none ∧ res.provider ≠ provider then false
  else if res.U ≠ none ∧ res.U ≠ sender then false
  else true

/-- Mutations applied to the matched (or fresh) bucket (lines 382-388):
overwrite `U`/`provider` when the item carries them, append the sample. -/
def applySpeedUpd (res : SpeedResult) (sender provider : Option String) (rtv : ℚ) :
    SpeedResult :=
  let res1 := match sender with | some s => { res with U := some s } | none => res
  let res2 := match provider with | some p => { res1 with provider := some p } | none => res1
  { res2 with rt := res2.rt ++ [rtv] }

/-- Seek the first matching bucket and update it in place, or append a
fresh bucket (lines 361-388). -/
def addSample : List SpeedResult → Option String → Option String →
    Option String → Option String → ℚ → List SpeedResult
  | [], station, client, sender, provider, rtv =>
      [applySpeedUpd (SpeedResult.mk station client none none []) sender provider rtv]
  | res :: rest, station, client, sender, provider, rtv =>
      if speedMatch res station client provider sender then
        applySpeedUpd res sender provider rtv :: rest
      else
        res :: addSample rest station client sender provider rtv

/-- Client-IP normalization (lines 357-360): take the host part of a
string address; index `[0]` of a list address raises on an empty list. -/
def clientIpOf : Option ClientV → Except String (Option String)
  | some (.str s) => .ok (some ((s.splitOn ":").headD ""))
  | some (.list []) => .error "IndexError: list index out of range"
  | some (.list (c :: _)) => .ok (some c)
  | none => .ok none

/-- Process one stored speeds item (lines 348-388): skip items with a
missing or non-positive response time, else bucket the sample. -/
def speedStep (speeds : List SpeedResult) (item : SpeedStored) :
    Except String (List SpeedResult) :=
  match item.response_time with
  | none => .ok speeds
  | some rtv =>
      if rtv ≤ 0 then .ok speeds
      else
        match clientIpOf item.client with
        | .error e => .error e
        | .ok client => .ok (addSample speeds item.station client item.U item.provider rtv)

/-- Fold the items of one tag. -/
def speedFold (speeds : List SpeedResult) : List SpeedStored →
    Except String (List SpeedResult)
  | [] => .ok speeds
  | item :: rest =>
      match speedStep speeds item with
      | .error e => .error e
      | .ok speeds' => speedFold speeds' rest

/-- Fold over the shard's tags. -/
def getSpeedsAux (speeds : List SpeedResult) :
    List (String × List SpeedStored) → Except String (List SpeedResult)
  | [] => .ok speeds
  | entry :: rest =>
      match speedFold speeds entry.2 with
      | .error e => .error e
      | .ok speeds' => getSpeedsAux speeds' rest

/-- `StatRecorder.get_speeds` (lines 338-389) given the parsed shard
document. -/
def get_speeds (container : List (String × List SpeedStored)) :
    Except String (List SpeedResult) :=
  getSpeedsAux [] container

/-! ### `math_stat` -/

/-- Left-pad with zeros to the given width. -/
def padZeros (s : String) (w : Nat) : String :=
  String.mk (List.replicate (w - s.length) '0') ++ s

/-- Python `'%f'` rendering of a value: six decimal places.  Floats are
modelled as rationals; the rounding is exact for the decimally
representable samples the claims exercise. -/
def formatF (q : ℚ) : String :=
  let sign := if q < 0 then "-" else ""
  let a : ℚ := |q| * 1000000 + 1 / 2
  let n : Nat := a.floor.toNat
  sign ++ toString (n / 1000000) ++ "." ++ padZeros (toString (n % 1000000)) 6

/-- Python `repr` of one sample as it appears in `str(array)`; exact for
integer-valued samples (the shortest-roundtrip float repr is not
modelled). -/
def pyRepr (q : ℚ) : String :=
  if q.den = 1 then toString q.num else formatF q

/-- Python `str(array)` for a list of samples. -/
def strList (l : List ℚ) : String :=
  "[" ++ String.intercalate ", " (l.map pyRepr) ++ "]"

/-- `math_stat` (lines 148-157): below three samples, render the raw
list; otherwise sort, `pop()` the maximum, `pop(0)` the minimum, and
report both around the mean of the remainder, with the untrimmed count. -/
def math_stat (array : List ℚ) : String × Nat :=
  let count := array.length
  if count < 3 then (strList array, count)
  else
    let sorted := array.insertionSort (· ≤ ·)
    let right := sorted.getLastD 0
    let rest1 := sorted.dropLast
    let left := rest1.headD 0
    let middle := rest1.drop 1
    let mean := middle.sum / (middle.length : ℚ)
    (formatF left ++ " ... [" ++ formatF mean ++ "] ... " ++ formatF right, count)

/-! ### The worker loop step `process` -/

/-- The `remote_address` of an incoming speeds record: `"host:port"` or
a two-element `[host, port]` pair (lines 414-417). -/
inductive ClientAddr
  | str (s : String)
  | pair (host : String) (port : Int)
deriving DecidableEq

/-- A queued customized content, with the fields `process` reads;
`none` models a missing payload key (`content.get` returning `None`). -/
structure Content where
  time : Option ℚ
  module : String
  users : Option (List NewUserItem)
  stats : Option (List StatItem)
  U : Option String
  provider : Option String
  stations : Option (List Station)
  remote_address : Option ClientAddr
deriving DecidableEq

/-- Recorder state: the ingestion queue and the persisted documents of
the three log kinds. -/
structure RecState where
  contents : List Content
  users_store : Store UserItem
  stats_store : Store StatItem
  speeds_store : Store SpeedStored
deriving DecidableEq

/-- Which branch of `process` handled the popped record (an observer of
the control flow; `dispatched mod ok` records whether the kind-specific
save succeeded or its exception was caught at line 421). -/
inductive StepOutcome
  | noContent
  | expired
  | dispatched (mod : String) (ok : Bool)
  | ignoredMod
deriving DecidableEq

/-- `StatRecorder.process` (lines 392-423): pop one record; drop it with
a warning when its timestamp is missing or older than seven days;
otherwise dispatch on `content.module`, catching any exception from the
save routine; return `False` only when the queue was empty. -/
def process (localtime : ℚ → LocalTime) (c : StatConfig) (now : ℚ)
    (st : RecState) : Bool × RecState × StepOutcome :=
  match st.contents with
  | [] => (false, st, .noContent)
  | content :: rest =>
      let st1 : RecState := { st with contents := rest }
      match content.time with
      | none => (true, st1, .expired)
      | some msg_time =>
          if msg_time < now - 3600 * 24 * 7 then (true, st1, .expired)
          else if content.module = "users" then
            match save_users localtime c st1.users_store msg_time content.users with
            | .ok s => (true, { st1 with users_store := s }, .dispatched "users" true)
            | .error _ => (true, st1, .dispatched "users" false)
          else if content.module = "stats" then
            match save_stats localtime c st1.stats_store msg_time content.stats with
            | .ok s => (true, { st1 with stats_store := s }, .dispatched "stats" true)
            | .error _ => (true, st1, .dispatched "stats" false)
          else if content.module = "speeds" then
            let client : Option String :=
              match content.remote_address with
              | some (.pair h p) => some (h ++ ":" ++ toString p)
              | some (.str s) => some s
              | none => none
            match save_speeds localtime c st1.speeds_store msg_time content.U
                content.provider content.stations client with
            | .ok s => (true, { st1 with speeds_store := s }, .dispatched "speeds" true)
            | .error _ => (true, st1, .dispatched "speeds" false)
          else (true, st1, .ignoredMod)

/-! ### Spec-side definitions used by the claim statements -/

/-- User id of a stored item. -/
def itemUid : UserItem → String
  | .dict uid _ => uid
  | .legacy uid => uid

/-- User ids of a stored array, in order. -/
def uidsOf (arr : List UserItem) : List String :=
  arr.map itemUid

/-- A user id is present in the stored array. -/
def present (arr : List UserItem) (uid : String) : Prop :=
  uid ∈ uidsOf arr

/-- An IP is recorded for a user id by a structured entry of the array. -/
def ipMem (arr : List UserItem) (uid ip : String) : Prop :=
  ∃ ips, UserItem.dict uid (some (.ipList ips)) ∈ arr ∧ ip ∈ ips

/-- The canonical shape `_save_users` writes: a dict with a list `IP`. -/
def canonicalItem : UserItem → Bool
  | .dict _ (some (.ipList _)) => true
  | _ => false

/-- Stored shapes whose expansion does not fail the `IP` assertion. -/
def goodStored : UserItem → Bool
  | .dict _ none => false
  | _ => true

/-- Incoming entries whose working-set pair is hashable. -/
def goodNew : NewUserItem → Bool
  | .dict _ (some (.l _)) => false
  | _ => true

/-- An incoming dict entry whose `IP` field is a list. -/
def hasListIP : NewUserItem → Bool
  | .dict _ (some (.l _)) => true
  | _ => false

/-- Total companion of `expandStored`, agreeing with it on `goodStored`
items. -/
def storedPairs : UserItem → List UPair
  | .legacy uid => [(uid, none)]
  | .dict uid none => [(uid, none)]
  | .dict uid (some (.ipStr ip)) => [(uid, some ip)]
  | .dict uid (some (.ipList ips)) =>
      let s := ips.dedup
      if s.isEmpty then [(uid, none)] else s.map (fun ip => (uid, some ip))

/-- Total companion of `newPair`, agreeing with it on `goodNew` items. -/
def newPairOk : NewUserItem → UPair
  | .dict uid (some (.s ip)) => (uid, some ip)
  | .dict uid (some (.l _)) => (uid, none)
  | .dict uid none => (uid, none)
  | .legacy uid => (uid, none)

/-- The pair `(uid, o)` was recorded by some entry of some batch. -/
def recordedIn (batches : List (List NewUserItem)) (p : UPair) : Prop :=
  ∃ us ∈ batches, ∃ it ∈ us, newPairOk it = p

/-- Keys of a regrouping table, in order. -/
def tkeys (t : Table) : List String :=
  t.map (fun e => e.1)

/-- What `addPair` does to the IP set stored under the pair's key. -/
def updIP : Option (List String) → Option String → List String
  | none, none => []
  | none, some i => [i]
  | some ips, none => ips
  | some ips, some i => insertIP ips i

/-- Invariant carried through the regrouping fold: the table is keyed
without duplicates, a key is present exactly when some pair of `R`
mentions it, and its IP set holds exactly the non-null IPs `R` records
for it. -/
def TInv (t : Table) (R : UPair → Prop) : Prop :=
  (tkeys t).Nodup ∧
  (∀ u, (alook t u).isSome ↔ ∃ o, R (u, o)) ∧
  (∀ u ips, alook t u = some ips → ∀ ip, ip ∈ ips ↔ R (u, some ip))

/-- Iterate per-tag merges from an already stored array. -/
def runMerges (arr : List UserItem) :
    List (List NewUserItem) → Except String (List UserItem)
  | [] => .ok arr
  | us :: rest =>
      match save_users_tag (some arr) (some us) with
      | .error e => .error e
      | .ok arr' => runMerges arr' rest

/-- Iterate per-tag merges for a tag that starts out absent from the
shard document. -/
def applyMerges : List (List NewUserItem) → Except String (List UserItem)
  | [] => .ok []
  | us :: rest =>
      match save_users_tag none (some us) with
      | .error e => .error e
      | .ok arr' => runMerges arr' rest

/-! ### Helper lemmas: the working set -/

theorem mem_insertPair {rs : List UPair} {p q : UPair} :
    q ∈ insertPair rs p ↔ q ∈ rs ∨ q = p := by
  by_cases h : p ∈ rs
  · simp only [insertPair, if_pos h]
    exact ⟨Or.inl, fun hq => hq.elim id (fun e => e ▸ h)⟩
  · simp [insertPair, if_neg h]

theorem mem_foldl_insertPair (ps : List UPair) :
    ∀ (rs : List UPair) (q : UPair),
      q ∈ ps.foldl insertPair rs ↔ q ∈ rs ∨ q ∈ ps := by
  induction ps with
  | nil => simp
  | cons p ps ih =>
      intro rs q
      rw [List.foldl_cons, ih, mem_insertPair]
      simp only [List.mem_cons]
      tauto

theorem expandStored_good {it : UserItem} (h : goodStored it = true) :
    expandStored it = .ok (storedPairs it) := by
  cases it with
  | legacy uid => rfl
  | dict uid ip =>
      cases ip with
      | none => simp [goodStored] at h
      | some f => cases f <;> rfl

theorem readRecordsAux_ok {arr : List UserItem}
    (h : ∀ it ∈ arr, goodStored it = true) :
    ∀ rs : List UPair, ∃ rs', readRecordsAux rs arr = .ok rs' ∧
      ∀ q, q ∈ rs' ↔ q ∈ rs ∨ ∃ it ∈ arr, q ∈ storedPairs it := by
  induction arr with
  | nil => intro rs; exact ⟨rs, rfl, by simp [readRecordsAux]⟩
  | cons it rest ih =>
      intro rs
      have hit : goodStored it = true := h it (by simp)
      have hrest : ∀ x ∈ rest, goodStored x = true := fun x hx => h x (by simp [hx])
      obtain ⟨rs', hrun, hmem⟩ := ih hrest ((storedPairs it).foldl insertPair rs)
      refine ⟨rs', ?_, ?_⟩
      · simp only [readRecordsAux, expandStored_good hit]
        exact hrun
      · intro q
        rw [hmem q, mem_foldl_insertPair]
        simp only [List.mem_cons]
        constructor
        · rintro ((hq | hq) | ⟨x, hx, hq⟩)
          · exact Or.inl hq
          · exact Or.inr ⟨it, Or.inl rfl, hq⟩
          · exact Or.inr ⟨x, Or.inr hx, hq⟩
        · rintro (hq | ⟨x, hx | hx, hq⟩)
          · exact Or.inl (Or.inl hq)
          · exact Or.inl (Or.inr (hx ▸ hq))
          · exact Or.inr ⟨x, hx, hq⟩

theorem readRecords_ok {arr : List UserItem}
    (h : ∀ it ∈ arr, goodStored it = true) :
    ∃ rs', readRecords arr = .ok rs' ∧
      ∀ q, q ∈ rs' ↔ ∃ it ∈ arr, q ∈ storedPairs it := by
  obtain ⟨rs', hrun, hmem⟩ := readRecordsAux_ok h []
  exact ⟨rs', hrun, fun q => by rw [hmem q]; simp⟩

theorem readRecordsAux_missing_ip (pre : List UserItem) (uid : String)
    (post : List UserItem) :
    ∀ rs, ∃ e, readRecordsAux rs (pre ++ .dict uid none :: post) = .error e := by
  induction pre with
  | nil =>
      intro rs
      exact ⟨"AssertionError: IP error", rfl⟩
  | cons it rest ih =>
      intro rs
      simp only [List.cons_append, readRecordsAux]
      cases hexp : expandStored it with
      | error e => exact ⟨e, rfl⟩
      | ok ps => exact ih _

theorem newPair_good {it : NewUserItem} (h : goodNew it = true) :
    newPair it = .ok (newPairOk it) := by
  cases it with
  | legacy uid => rfl
  | dict uid ip =>
      cases ip with
      | none => rfl
      | some f =>
          cases f with
          | s ip => rfl
          | l ips => simp [goodNew] at h

theorem addNewUsers_ok {us : List NewUserItem}
    (h : ∀ it ∈ us, goodNew it = true) :
    ∀ rs : List UPair, ∃ rs', addNewUsers rs us = .ok rs' ∧
      ∀ q, q ∈ rs' ↔ q ∈ rs ∨ ∃ it ∈ us, newPairOk it = q := by
  induction us with
  | nil => intro rs; exact ⟨rs, rfl, by simp [addNewUsers]⟩
  | cons it rest ih =>
      intro rs
      have hit : goodNew it = true := h it (by simp)
      have hrest : ∀ x ∈ rest, goodNew x = true := fun x hx => h x (by simp [hx])
      obtain ⟨rs', hrun, hmem⟩ := ih hrest (insertPair rs (newPairOk it))
      refine ⟨rs', ?_, ?_⟩
      · simp only [addNewUsers, newPair_good hit]
        exact hrun
      · intro q
        rw [hmem q, mem_insertPair]
        simp only [List.mem_cons]
        constructor
        · rintro ((hq | hq) | ⟨x, hx, hq⟩)
          · exact Or.inl hq
          · exact Or.inr ⟨it, Or.inl rfl, hq.symm⟩
          · exact Or.inr ⟨x, Or.inr hx, hq⟩
        · rintro (hq | ⟨x, hx | hx, hq⟩)
          · exact Or.inl (Or.inl hq)
          · exact Or.inl (Or.inr (by rw [← hq, hx]))
          · exact Or.inr ⟨x, hx, hq⟩

theorem addNewUsers_fails {us : List NewUserItem}
    (h : ∃ it ∈ us, hasListIP it = true) :
    ∀ rs, ∃ e, addNewUsers rs us = .error e := by
  induction us with
  | nil => simp at h
  | cons it rest ih =>
      intro rs
      by_cases hbad : hasListIP it = true
      · obtain ⟨uid, ips, rfl⟩ : ∃ uid ips, it = .dict uid (some (.l ips)) := by
          cases it with
          | legacy uid => simp [hasListIP] at hbad
          | dict uid ip =>
              cases ip with
              | none => simp [hasListIP] at hbad
              | some f =>
                  cases f with
                  | s i => simp [hasListIP] at hbad
                  | l ips => exact ⟨uid, ips, rfl⟩
        exact ⟨"TypeError: unhashable type: list", rfl⟩
      · obtain ⟨x, hx, hxbad⟩ := h
        rcases List.mem_cons.mp hx with rfl | hx
        · exact absurd hxbad hbad
        · simp only [addNewUsers]
          cases hnp : newPair it with
          | error e => exact ⟨e, rfl⟩
          | ok p => exact ih ⟨x, hx, hxbad⟩ _

/-! ### Helper lemmas: the regrouping table -/

theorem mem_insertIP {ips : List String} {i x : String} :
    x ∈ insertIP ips i ↔ x ∈ ips ∨ x = i := by
  by_cases h : i ∈ ips
  · simp only [insertIP, if_pos h]
    exact ⟨Or.inl, fun hq => hq.elim id (fun e => e ▸ h)⟩
  · simp [insertIP, if_neg h]

theorem mem_updIP {o : Option (List String)} {io : Option String} {x : String} :
    x ∈ updIP o io ↔ (∃ ips, o = some ips ∧ x ∈ ips) ∨ io = some x := by
  cases o <;> cases io <;> simp [updIP, mem_insertIP, eq_comm]

theorem alook_eq_none {β : Type} (l : List (String × β)) (u : String) :
    alook l u = none ↔ u ∉ l.map (fun e => e.1) := by
  induction l with
  | nil => simp [alook]
  | cons e rest ih =>
      obtain ⟨k, v⟩ := e
      by_cases h : k = u
      · subst h; simp [alook]
      · simp only [alook, if_neg h, List.map_cons, List.mem_cons]
        rw [ih]
        constructor
        · intro hn hc
          rcases hc with hc | hc
          · exact h hc.symm
          · exact hn hc
        · intro hn hc
          exact hn (Or.inr hc)

theorem alook_cons {β : Type} (k : String) (v : β) (rest : List (String × β))
    (u : String) :
    alook ((k, v) :: rest) u = if k = u then some v else alook rest u := rfl

theorem mem_iff_alook {β : Type} {l : List (String × β)}
    (h : (l.map (fun e => e.1)).Nodup) {u : String} {v : β} :
    (u, v) ∈ l ↔ alook l u = some v := by
  induction l with
  | nil => simp [alook]
  | cons e rest ih =>
      obtain ⟨k, w⟩ := e
      simp only [List.map_cons, List.nodup_cons] at h
      by_cases hk : k = u
      · subst hk
        rw [alook_cons, if_pos rfl, List.mem_cons]
        constructor
        · rintro (he | he)
          · injection he with h1 h2
            rw [h2]
          · exact absurd (List.mem_map.mpr ⟨(k, v), he, rfl⟩) h.1
        · intro he
          exact Or.inl (by rw [Option.some.inj he])
      · rw [alook_cons, if_neg hk, List.mem_cons, ← ih h.2]
        constructor
        · rintro (he | he)
          · injection he with h1 h2
            exact absurd h1.symm hk
          · exact he
        · exact Or.inr

theorem tkeys_cons (k : String) (ips : List String) (t : Table) :
    tkeys ((k, ips) :: t) = k :: tkeys t := rfl

theorem addPair_nil (uid : String) (ip : Option String) :
    addPair [] (uid, ip) = [(uid, updIP none ip)] := by
  cases ip <;> rfl

theorem addPair_cons (k : String) (ips : List String) (rest : Table)
    (uid : String) (ip : Option String) :
    addPair ((k, ips) :: rest) (uid, ip) =
      if k = uid then (k, updIP (some ips) ip) :: rest
      else (k, ips) :: addPair rest (uid, ip) := by
  by_cases h : k = uid <;> cases ip <;> simp [addPair, h, updIP]

theorem addPair_alook (t : Table) (uid : String) (ip : Option String)
    (u : String) :
    alook (addPair t (uid, ip)) u =
      if u = uid then some (updIP (alook t uid) ip) else alook t u := by
  induction t with
  | nil =>
      rw [addPair_nil, alook_cons]
      by_cases h : u = uid
      · subst h
        simp [alook]
      · simp [alook, h, Ne.symm h]
  | cons e rest ih =>
      obtain ⟨k, ips⟩ := e
      rw [addPair_cons]
      by_cases h1 : k = uid
      · subst h1
        rw [if_pos rfl]
        by_cases h2 : k = u
        · subst h2
          simp [alook_cons]
        · simp [alook_cons, h2, Ne.symm h2]
      · rw [if_neg h1]
        by_cases h2 : k = u
        · subst h2
          simp [alook_cons, h1, Ne.symm h1]
        · simp [alook_cons, h1, h2, Ne.symm h2, ih]

theorem addPair_tkeys (t : Table) (uid : String) (ip : Option String) :
    tkeys (addPair t (uid, ip)) =
      if uid ∈ tkeys t then tkeys t else tkeys t ++ [uid] := by
  induction t with
  | nil =>
      rw [addPair_nil]
      simp [tkeys]
  | cons e rest ih =>
      obtain ⟨k, ips⟩ := e
      rw [addPair_cons]
      by_cases h1 : k = uid
      · subst h1
        rw [if_pos rfl]
        simp only [tkeys_cons]
        rw [if_pos (List.mem_cons_self k (tkeys rest))]
      · rw [if_neg h1]
        simp only [tkeys_cons]
        rw [ih]
        by_cases h2 : uid ∈ tkeys rest
        · rw [if_pos h2, if_pos (List.mem_cons_of_mem k h2)]
        · have hn : uid ∉ k :: tkeys rest := by
            intro hc
            rcases List.mem_cons.mp hc with hc | hc
            · exact h1 hc.symm
            · exact h2 hc
          rw [if_neg h2, if_neg hn, List.cons_append]

theorem addPair_nodup {t : Table} (uid : String) (ip : Option String)
    (h : (tkeys t).Nodup) : (tkeys (addPair t (uid, ip))).Nodup := by
  rw [addPair_tkeys]
  by_cases hm : uid ∈ tkeys t
  · rwa [if_pos hm]
  · rw [if_neg hm]
    refine List.Nodup.append h (List.nodup_singleton uid) ?_
    intro a ha hb
    rw [List.mem_singleton] at hb
    exact hm (hb ▸ ha)

theorem TInv_congr {t : Table} {R R₀ : UPair → Prop} (h : TInv t R)
    (hiff : ∀ q, R q ↔ R₀ q) : TInv t R₀ := by
  obtain ⟨hnd, hpres, hips⟩ := h
  refine ⟨hnd, ?_, ?_⟩
  · intro u
    rw [hpres u]
    exact exists_congr (fun o => hiff _)
  · intro u ips ha ip
    rw [hips u ips ha ip]
    exact hiff _

theorem TInv_addPair {t : Table} {R : UPair → Prop} (h : TInv t R)
    (uid : String) (ip : Option String) :
    TInv (addPair t (uid, ip)) (fun q => R q ∨ q = (uid, ip)) := by
  obtain ⟨hnd, hpres, hips⟩ := h
  refine ⟨addPair_nodup uid ip hnd, ?_, ?_⟩
  · intro u
    rw [addPair_alook]
    by_cases hu : u = uid
    · subst hu
      rw [if_pos rfl]
      constructor
      · intro _
        exact ⟨ip, Or.inr rfl⟩
      · intro _
        rfl
    · rw [if_neg hu, hpres u]
      constructor
      · rintro ⟨o, ho⟩
        exact ⟨o, Or.inl ho⟩
      · rintro ⟨o, ho | ho⟩
        · exact ⟨o, ho⟩
        · injection ho with ho1 ho2
          exact absurd ho1 hu
  · intro u ips₀ halook ip₀
    rw [addPair_alook] at halook
    by_cases hu : u = uid
    · subst hu
      rw [if_pos rfl] at halook
      have hips₀ : ips₀ = updIP (alook t u) ip := (Option.some.inj halook).symm
      subst hips₀
      rw [mem_updIP]
      constructor
      · rintro (⟨ips1, ha, hin⟩ | he)
        · exact Or.inl ((hips u ips1 ha ip₀).mp hin)
        · exact Or.inr (by rw [← he])
      · rintro (hr | he)
        · obtain ⟨w, hw⟩ := Option.isSome_iff_exists.mp ((hpres u).mpr ⟨some ip₀, hr⟩)
          exact Or.inl ⟨w, hw, (hips u w hw ip₀).mpr hr⟩
        · injection he with he1 he2
          exact Or.inr he2.symm
    · rw [if_neg hu] at halook
      rw [hips u ips₀ halook ip₀]
      constructor
      · exact Or.inl
      · rintro (hr | he)
        · exact hr
        · injection he with he1 he2
          exact absurd he1 hu

theorem TInv_foldl (rs : List UPair) :
    ∀ (t : Table) (R : UPair → Prop), TInv t R →
      TInv (rs.foldl addPair t) (fun q => R q ∨ q ∈ rs) := by
  induction rs with
  | nil =>
      intro t R h
      exact TInv_congr h (by simp)
  | cons p ps ih =>
      intro t R h
      obtain ⟨uid, ip⟩ := p
      have h2 := ih _ _ (TInv_addPair h uid ip)
      refine TInv_congr h2 ?_
      intro q
      simp only [List.mem_cons]
      tauto

theorem TInv_buildTable (rs : List UPair) :
    TInv (buildTable rs) (fun q => q ∈ rs) := by
  have h0 : TInv [] (fun _ => False) :=
    ⟨by simp [tkeys], by simp [alook], by simp [alook]⟩
  exact TInv_congr (TInv_foldl rs [] _ h0) (by simp)

/-! ### Helper lemmas: the canonical stored array -/

theorem uidsOf_tableToArray (t : Table) : uidsOf (tableToArray t) = tkeys t := by
  simp only [uidsOf, tableToArray, tkeys, List.map_map]
  rfl

theorem canonical_tableToArray (t : Table) :
    ∀ it ∈ tableToArray t, canonicalItem it = true := by
  intro it hit
  obtain ⟨e, _, rfl⟩ := List.mem_map.mp hit
  rfl

theorem mem_tableToArray {t : Table} {u : String} {ips : List String} :
    UserItem.dict u (some (.ipList ips)) ∈ tableToArray t ↔ (u, ips) ∈ t := by
  simp only [tableToArray, List.mem_map]
  constructor
  · rintro ⟨e, he, heq⟩
    obtain ⟨rfl, h2⟩ : e.1 = u ∧ IPField.ipList e.2 = .ipList ips := by
      injection heq with h1 h2
      exact ⟨h1, Option.some.inj h2⟩
    obtain rfl : e.2 = ips := by injection h2
    exact he
  · intro he
    exact ⟨(u, ips), he, rfl⟩

theorem tkeys_def (t : Table) : tkeys t = t.map (fun e => e.1) := rfl

theorem alook_isSome_iff {β : Type} (l : List (String × β)) (u : String) :
    (alook l u).isSome = true ↔ u ∈ l.map (fun e => e.1) := by
  cases halt : alook l u with
  | none =>
      simp only [Option.isSome_none, Bool.false_eq_true, false_iff]
      exact (alook_eq_none l u).mp halt
  | some v =>
      simp only [Option.isSome_some, true_iff]
      by_contra hc
      rw [(alook_eq_none l u).mpr hc] at halt
      exact Option.noConfusion halt

theorem canonical_good {it : UserItem} (hc : canonicalItem it = true) :
    goodStored it = true := by
  cases it with
  | legacy uid => rfl
  | dict uid ip =>
      cases ip with
      | none => simp [canonicalItem] at hc
      | some f => cases f <;> rfl

theorem canonical_shape {it : UserItem} (hc : canonicalItem it = true) :
    ∃ uid ips, it = .dict uid (some (.ipList ips)) := by
  cases it with
  | legacy uid => simp [canonicalItem] at hc
  | dict uid ip =>
      cases ip with
      | none => simp [canonicalItem] at hc
      | some f =>
          cases f with
          | ipList ips => exact ⟨uid, ips, rfl⟩
          | ipStr i => simp [canonicalItem] at hc

theorem storedPairs_canonical (uid : String) (ips : List String) :
    storedPairs (.dict uid (some (.ipList ips))) =
      if ips.dedup.isEmpty then [(uid, none)]
      else ips.dedup.map (fun ip => (uid, some ip)) := rfl

theorem storedPairs_mem_canonical {uid u : String} {ips : List String}
    {o : Option String} :
    (u, o) ∈ storedPairs (.dict uid (some (.ipList ips))) ↔
      u = uid ∧ ((o = none ∧ ips = []) ∨ ∃ ip, o = some ip ∧ ip ∈ ips) := by
  rw [storedPairs_canonical]
  by_cases hd : ips.dedup.isEmpty
  · have hnil : ips = [] := by
      rw [List.isEmpty_iff] at hd
      rwa [List.dedup_eq_nil] at hd
    subst hnil
    rw [if_pos hd]
    simp [Prod.ext_iff]
  · have hne : ips ≠ [] := by
      intro h
      subst h
      simp at hd
    rw [if_neg hd]
    rw [List.mem_map]
    constructor
    · rintro ⟨x, hx, he⟩
      injection he with he1 he2
      exact ⟨he1.symm, Or.inr ⟨x, he2.symm, List.mem_dedup.mp hx⟩⟩
    · rintro ⟨rfl, ⟨ho, hnil⟩ | ⟨ip, rfl, hip⟩⟩
      · exact absurd hnil hne
      · exact ⟨ip, List.mem_dedup.mpr hip, rfl⟩

theorem present_iff (arr : List UserItem) (uid : String) :
    present arr uid ↔ ∃ it ∈ arr, itemUid it = uid := by
  simp [present, uidsOf, List.mem_map]

theorem pairs_present_iff {arr : List UserItem}
    (hc : ∀ it ∈ arr, canonicalItem it = true) (uid : String) :
    (∃ it ∈ arr, ∃ o, (uid, o) ∈ storedPairs it) ↔ present arr uid := by
  rw [present_iff]
  constructor
  · rintro ⟨it, hit, o, ho⟩
    obtain ⟨u, ips, rfl⟩ := canonical_shape (hc it hit)
    refine ⟨_, hit, ?_⟩
    exact (storedPairs_mem_canonical.mp ho).1.symm
  · rintro ⟨it, hit, huid⟩
    obtain ⟨u, ips, rfl⟩ := canonical_shape (hc it hit)
    obtain rfl : u = uid := huid
    refine ⟨_, hit, ?_⟩
    by_cases hnil : ips = []
    · subst hnil
      exact ⟨none, storedPairs_mem_canonical.mpr ⟨rfl, Or.inl ⟨rfl, rfl⟩⟩⟩
    · obtain ⟨ip, hip⟩ := List.exists_mem_of_ne_nil ips hnil
      exact ⟨some ip, storedPairs_mem_canonical.mpr ⟨rfl, Or.inr ⟨ip, rfl, hip⟩⟩⟩

theorem pairs_ip_iff {arr : List UserItem}
    (hc : ∀ it ∈ arr, canonicalItem it = true) (uid ip : String) :
    (∃ it ∈ arr, (uid, some ip) ∈ storedPairs it) ↔ ipMem arr uid ip := by
  constructor
  · rintro ⟨it, hit, ho⟩
    obtain ⟨u, ips, rfl⟩ := canonical_shape (hc it hit)
    obtain ⟨rfl, h | ⟨ip', he, hip⟩⟩ := storedPairs_mem_canonical.mp ho
    · exact absurd h.1 (by simp)
    · obtain rfl : ip' = ip := by
        injection he with h
        exact h.symm
      exact ⟨ips, hit, hip⟩
  · rintro ⟨ips, hit, hip⟩
    exact ⟨_, hit, storedPairs_mem_canonical.mpr ⟨rfl, Or.inr ⟨ip, rfl, hip⟩⟩⟩

/-! ### The merge step and its iteration -/

theorem save_users_tag_ok {arr : List UserItem} {us : List NewUserItem}
    (hc : ∀ it ∈ arr, canonicalItem it = true)
    (hg : ∀ it ∈ us, goodNew it = true) :
    ∃ arr', save_users_tag (some arr) (some us) = .ok arr' ∧
      (∀ it ∈ arr', canonicalItem it = true) ∧
      (uidsOf arr').Nodup ∧
      (∀ uid, present arr' uid ↔
        present arr uid ∨ ∃ it ∈ us, (newPairOk it).1 = uid) ∧
      (∀ uid ip, ipMem arr' uid ip ↔
        ipMem arr uid ip ∨ ∃ it ∈ us, newPairOk it = (uid, some ip)) := by
  obtain ⟨rs, hrs, hrsmem⟩ := readRecords_ok (fun it hit => canonical_good (hc it hit))
  obtain ⟨rs2, hrs2, hrs2mem⟩ := addNewUsers_ok hg rs
  obtain ⟨hTnd, hTpres, hTips⟩ := TInv_buildTable rs2
  refine ⟨tableToArray (buildTable rs2), ?_, canonical_tableToArray _, ?_, ?_, ?_⟩
  · simp only [save_users_tag, readExisting, hrs, hrs2]
  · rw [uidsOf_tableToArray]
    exact hTnd
  · intro uid
    have h1 : present (tableToArray (buildTable rs2)) uid ↔
        (alook (buildTable rs2) uid).isSome = true := by
      rw [present, uidsOf_tableToArray, tkeys_def, alook_isSome_iff]
    rw [h1, hTpres uid]
    constructor
    · rintro ⟨o, ho⟩
      rcases (hrs2mem _).mp ho with hin | ⟨it, hit, hnp⟩
      · exact Or.inl ((pairs_present_iff hc uid).mp
          (by obtain ⟨it, hit, hsp⟩ := (hrsmem _).mp hin; exact ⟨it, hit, o, hsp⟩))
      · exact Or.inr ⟨it, hit, by rw [hnp]⟩
    · rintro (hp | ⟨it, hit, hfst⟩)
      · obtain ⟨it, hit, o, hsp⟩ := (pairs_present_iff hc uid).mpr hp
        exact ⟨o, (hrs2mem _).mpr (Or.inl ((hrsmem _).mpr ⟨it, hit, hsp⟩))⟩
      · refine ⟨(newPairOk it).2, (hrs2mem _).mpr (Or.inr ⟨it, hit, ?_⟩)⟩
        rw [← hfst]
  · intro uid ip
    have h1 : ipMem (tableToArray (buildTable rs2)) uid ip ↔
        (uid, some ip) ∈ rs2 := by
      constructor
      · rintro ⟨ips, hmem, hip⟩
        rw [mem_tableToArray] at hmem
        rw [mem_iff_alook hTnd] at hmem
        exact (hTips uid ips hmem ip).mp hip
      · intro hin
        have hs : (alook (buildTable rs2) uid).isSome = true :=
          (hTpres uid).mpr ⟨some ip, hin⟩
        obtain ⟨ips, hips⟩ := Option.isSome_iff_exists.mp hs
        refine ⟨ips, ?_, (hTips uid ips hips ip).mpr hin⟩
        rw [mem_tableToArray, mem_iff_alook hTnd]
        exact hips
    rw [h1, hrs2mem _]
    constructor
    · rintro (hin | h)
      · exact Or.inl ((pairs_ip_iff hc uid ip).mp ((hrsmem _).mp hin))
      · exact Or.inr h
    · rintro (hin | h)
      · exact Or.inl ((hrsmem _).mpr ((pairs_ip_iff hc uid ip).mpr hin))
      · exact Or.inr h

theorem save_users_tag_none (users : Option (List NewUserItem)) :
    save_users_tag none users = save_users_tag (some []) users := rfl

theorem runMerges_spec (batches : List (List NewUserItem)) :
    ∀ arr : List UserItem,
      (∀ it ∈ arr, canonicalItem it = true) → (uidsOf arr).Nodup →
      (∀ us ∈ batches, ∀ it ∈ us, goodNew it = true) →
      ∃ arr', runMerges arr batches = .ok arr' ∧
        (∀ it ∈ arr', canonicalItem it = true) ∧
        (uidsOf arr').Nodup ∧
        (∀ uid, present arr' uid ↔
          present arr uid ∨ ∃ us ∈ batches, ∃ it ∈ us, (newPairOk it).1 = uid) ∧
        (∀ uid ip, ipMem arr' uid ip ↔
          ipMem arr uid ip ∨ recordedIn batches (uid, some ip)) := by
  induction batches with
  | nil =>
      intro arr hc hnd hg
      refine ⟨arr, rfl, hc, hnd, ?_, ?_⟩
      · intro uid
        simp [recordedIn]
      · intro uid ip
        simp [recordedIn]
  | cons us rest ih =>
      intro arr hc hnd hg
      obtain ⟨arr1, hstep, hc1, hnd1, hpres1, hip1⟩ :=
        save_users_tag_ok hc (hg us (by simp))
      obtain ⟨arr', hrun, hc', hnd', hpres', hip'⟩ :=
        ih arr1 hc1 hnd1 (fun b hb => hg b (by simp [hb]))
      refine ⟨arr', ?_, hc', hnd', ?_, ?_⟩
      · simp only [runMerges, hstep]
        exact hrun
      · intro uid
        rw [hpres' uid, hpres1 uid]
        simp only [List.mem_cons]
        constructor
        · rintro ((hp | ⟨it, hit, he⟩) | ⟨b, hb, hrest⟩)
          · exact Or.inl hp
          · exact Or.inr ⟨us, Or.inl rfl, it, hit, he⟩
          · exact Or.inr ⟨b, Or.inr hb, hrest⟩
        · rintro (hp | ⟨b, hb | hb, hrest⟩)
          · exact Or.inl (Or.inl hp)
          · exact Or.inl (Or.inr (hb ▸ hrest))
          · exact Or.inr ⟨b, hb, hrest⟩
      · intro uid ip
        rw [hip' uid ip, hip1 uid ip]
        simp only [recordedIn, List.mem_cons]
        constructor
        · rintro ((hp | ⟨it, hit, he⟩) | ⟨b, hb, hrest⟩)
          · exact Or.inl hp
          · exact Or.inr ⟨us, Or.inl rfl, it, hit, he⟩
          · exact Or.inr ⟨b, Or.inr hb, hrest⟩
        · rintro (hp | ⟨b, hb | hb, hrest⟩)
          · exact Or.inl (Or.inl hp)
          · exact Or.inl (Or.inr (hb ▸ hrest))
          · exact Or.inr ⟨b, hb, hrest⟩

theorem applyMerges_spec (batches : List (List NewUserItem))
    (hg : ∀ us ∈ batches, ∀ it ∈ us, goodNew it = true) :
    ∃ arr', applyMerges batches = .ok arr' ∧
      (∀ it ∈ arr', canonicalItem it = true) ∧
      (uidsOf arr').Nodup ∧
      (∀ uid, present arr' uid ↔ ∃ us ∈ batches, ∃ it ∈ us, (newPairOk it).1 = uid) ∧
      (∀ uid ip, ipMem arr' uid ip ↔ recordedIn batches (uid, some ip)) := by
  cases batches with
  | nil =>
      refine ⟨[], rfl, by simp, by simp [uidsOf], ?_, ?_⟩
      · intro uid
        simp [present, uidsOf]
      · intro uid ip
        simp [ipMem, recordedIn]
  | cons us rest =>
      have hcnil : ∀ it ∈ ([] : List UserItem), canonicalItem it = true := by simp
      obtain ⟨arr1, hstep, hc1, hnd1, hpres1, hip1⟩ :=
        save_users_tag_ok hcnil (hg us (by simp))
      obtain ⟨arr', hrun, hc', hnd', hpres', hip'⟩ :=
        runMerges_spec rest arr1 hc1 hnd1 (fun b hb => hg b (by simp [hb]))
      refine ⟨arr', ?_, hc', hnd', ?_, ?_⟩
      · simp only [applyMerges, save_users_tag_none, hstep]
        exact hrun
      · intro uid
        rw [hpres' uid, hpres1 uid]
        simp only [present, uidsOf, List.map_nil, List.not_mem_nil, false_or,
          List.mem_cons]
        constructor
        · rintro (⟨it, hit, he⟩ | ⟨b, hb, hrest⟩)
          · exact ⟨us, Or.inl rfl, it, hit, he⟩
          · exact ⟨b, Or.inr hb, hrest⟩
        · rintro ⟨b, hb | hb, hrest⟩
          · exact Or.inl (hb ▸ hrest)
          · exact Or.inr ⟨b, hb, hrest⟩
      · intro uid ip
        rw [hip' uid ip, hip1 uid ip]
        simp only [ipMem, List.not_mem_nil, false_and, exists_false, false_or,
          recordedIn, List.mem_cons]
        constructor
        · rintro (⟨it, hit, he⟩ | ⟨b, hb, hrest⟩)
          · exact ⟨us, Or.inl rfl, it, hit, he⟩
          · exact ⟨b, Or.inr hb, hrest⟩
        · rintro ⟨b, hb | hb, hrest⟩
          · exact Or.inl (hb ▸ hrest)
          · exact Or.inr ⟨b, hb, hrest⟩

theorem uidsOf_def (arr : List UserItem) : uidsOf arr = arr.map itemUid := rfl

theorem readRecordsAux_congr (pre : List UserItem) {a b : UserItem}
    (hab : expandStored a = expandStored b) (post : List UserItem) :
    ∀ rs, readRecordsAux rs (pre ++ a :: post) =
      readRecordsAux rs (pre ++ b :: post) := by
  induction pre with
  | nil =>
      intro rs
      simp only [List.nil_append, readRecordsAux, hab]
  | cons it rest ih =>
      intro rs
      simp only [List.cons_append, readRecordsAux]
      cases hexp : expandStored it with
      | error e => rfl
      | ok ps => exact ih _

theorem getUsersStep_congr {a b : UserItem} (hab : itemView a = itemView b)
    (users : List (String × List String)) :
    getUsersStep users a = getUsersStep users b := by
  simp only [getUsersStep, hab]

theorem foldl_getUsersStep_congr {a b : UserItem} (hab : itemView a = itemView b)
    (pre post : List UserItem) :
    ∀ init, (pre ++ a :: post).foldl getUsersStep init =
      (pre ++ b :: post).foldl getUsersStep init := by
  induction pre with
  | nil =>
      intro init
      simp only [List.nil_append, List.foldl_cons]
      rw [getUsersStep_congr hab]
  | cons it rest ih =>
      intro init
      simp only [List.cons_append, List.foldl_cons]
      exact ih _

/-! ### Claim theorems: the user merge -/

/-- C1: after every sequence of user-record merges into a shard+tag that
started out absent, the stored entry list holds exactly one structured
entry per distinct recorded userId; an entry's IP list, as a set, is the
union of every IP ever recorded for that userId across all merges so
far, and a userId only ever recorded with no IP keeps an empty IP
list. -/
theorem users_merge_invariant (batches : List (List NewUserItem))
    (hg : ∀ us ∈ batches, ∀ it ∈ us, goodNew it = true) :
    ∃ arr, applyMerges batches = .ok arr ∧
      (uidsOf arr).Nodup ∧
      (∀ it ∈ arr, ∃ uid ips, it = .dict uid (some (.ipList ips))) ∧
      (∀ uid, present arr uid ↔ ∃ us ∈ batches, ∃ it ∈ us, (newPairOk it).1 = uid) ∧
      (∀ uid ips, UserItem.dict uid (some (.ipList ips)) ∈ arr →
        (∀ ip, ip ∈ ips ↔ recordedIn batches (uid, some ip)) ∧
        ((∀ ip, ¬ recordedIn batches (uid, some ip)) → ips = [])) := by
  obtain ⟨arr, hrun, hcanon, hnd, hpres, hip⟩ := applyMerges_spec batches hg
  refine ⟨arr, hrun, hnd, fun it hit => canonical_shape (hcanon it hit), hpres, ?_⟩
  intro uid ips hmem
  have huniq : ∀ ips', UserItem.dict uid (some (.ipList ips')) ∈ arr → ips' = ips := by
    intro ips' hmem'
    have hinj := List.inj_on_of_nodup_map (f := itemUid) hnd hmem' hmem
    have := hinj rfl
    injection this with h1 h2
    injection h2 with h3
    injection h3
  have hiff : ∀ ip, ip ∈ ips ↔ recordedIn batches (uid, some ip) := by
    intro ip
    rw [← hip uid ip]
    constructor
    · intro h
      exact ⟨ips, hmem, h⟩
    · rintro ⟨ips', hmem', h⟩
      exact (huniq ips' hmem') ▸ h
  refine ⟨hiff, fun hnone => ?_⟩
  rw [List.eq_nil_iff_forall_not_mem]
  intro ip hip'
  exact hnone ip ((hiff ip).mp hip')

/-- C1 witness: two merges recording two IPs for `U1` and a bare id
`U2`. -/
theorem users_merge_invariant_witness :
    ∃ arr, applyMerges [[.dict "U1" (some (.s "1.2.3.4"))],
        [.dict "U1" (some (.s "5.6.7.8")), .legacy "U2"]] = .ok arr ∧
      (uidsOf arr).Nodup ∧
      (∀ it ∈ arr, ∃ uid ips, it = .dict uid (some (.ipList ips))) ∧
      (∀ uid, present arr uid ↔ ∃ us ∈ [[NewUserItem.dict "U1" (some (.s "1.2.3.4"))],
          [.dict "U1" (some (.s "5.6.7.8")), .legacy "U2"]],
        ∃ it ∈ us, (newPairOk it).1 = uid) ∧
      (∀ uid ips, UserItem.dict uid (some (.ipList ips)) ∈ arr →
        (∀ ip, ip ∈ ips ↔ recordedIn [[.dict "U1" (some (.s "1.2.3.4"))],
            [.dict "U1" (some (.s "5.6.7.8")), .legacy "U2"]] (uid, some ip)) ∧
        ((∀ ip, ¬ recordedIn [[.dict "U1" (some (.s "1.2.3.4"))],
            [.dict "U1" (some (.s "5.6.7.8")), .legacy "U2"]] (uid, some ip)) →
          ips = [])) :=
  users_merge_invariant _ (by decide)

/-- C5 counterexample: a stored dict entry carrying no `IP` key is an
entry with no IP, yet the merge fails on it with an assertion error
instead of contributing `(userId, null)`. -/
theorem expand_no_ip_fails_counterexample :
    save_users_tag (some [.dict "alice" none]) (some []) =
      .error "AssertionError: IP error" := rfl

/-- C5 (amended): existing stored entries are expanded into working-set
pairs — one pair per distinct IP of a multi-IP entry, `(uid, some ip)`
for a string-IP entry, and `(uid, none)` for a bare-string entry or an
entry with an empty IP list — but a dict entry missing the `IP` key
fails the assertion and makes the merge fail. -/
theorem expand_existing_entries :
    (∀ arr : List UserItem, (∀ it ∈ arr, goodStored it = true) →
      ∃ rs, readRecords arr = .ok rs ∧
        ∀ q, q ∈ rs ↔ ∃ it ∈ arr, q ∈ storedPairs it) ∧
    (∀ (uid : String) (ips : List String), ips ≠ [] →
      storedPairs (.dict uid (some (.ipList ips))) =
        ips.dedup.map (fun ip => (uid, some ip))) ∧
    (∀ uid : String, storedPairs (.dict uid (some (.ipList []))) = [(uid, none)]) ∧
    (∀ uid : String, storedPairs (.legacy uid) = [(uid, none)]) ∧
    (∀ uid ip : String, storedPairs (.dict uid (some (.ipStr ip))) = [(uid, some ip)]) ∧
    (∀ (pre : List UserItem) (uid : String) (post : List UserItem),
      ∃ e, readRecords (pre ++ .dict uid none :: post) = .error e) := by
  refine ⟨fun arr h => readRecords_ok h, ?_, fun uid => rfl, fun uid => rfl,
    fun uid ip => rfl, fun pre uid post => readRecordsAux_missing_ip pre uid post []⟩
  intro uid ips hne
  rw [storedPairs_canonical, if_neg ?hd]
  case hd =>
    rw [List.isEmpty_iff]
    rw [List.dedup_eq_nil]
    exact hne

/-- C5 witness: a concrete good array expands as described. -/
theorem expand_existing_entries_witness :
    (∃ rs, readRecords [.dict "u" (some (.ipList ["a", "b"])), .legacy "v"] = .ok rs ∧
      ∀ q, q ∈ rs ↔ ∃ it ∈ [UserItem.dict "u" (some (.ipList ["a", "b"])), .legacy "v"],
        q ∈ storedPairs it) ∧
    storedPairs (.dict "u" (some (.ipList ["a", "b"]))) =
      (["a", "b"] : List String).dedup.map (fun ip => ("u", some ip)) ∧
    (∃ e, readRecords [.legacy "w", .dict "x" none] = .error e) :=
  ⟨expand_existing_entries.1 _ (by decide),
    expand_existing_entries.2.1 "u" ["a", "b"] (by decide),
    expand_existing_entries.2.2.2.2.2 [.legacy "w"] "x" []⟩

/-- C7: merging the same `(userId, ip)` pair a second time leaves the
user table of the tag unchanged as a `{userId ↦ IP-set}` mapping
(idempotence), and submitting batch `A` then `B` from an empty tag
yields the same `{userId ↦ IP-set}` table as `B` then `A`
(commutativity). -/
theorem merge_idempotent_commutative :
    (∀ (arr : List UserItem) (uid ip : String),
      (∀ it ∈ arr, canonicalItem it = true) →
      ∃ arr1 arr2,
        save_users_tag (some arr) (some [.dict uid (some (.s ip))]) = .ok arr1 ∧
        save_users_tag (some arr1) (some [.dict uid (some (.s ip))]) = .ok arr2 ∧
        (∀ u, present arr2 u ↔ present arr1 u) ∧
        (∀ u i, ipMem arr2 u i ↔ ipMem arr1 u i)) ∧
    (∀ A B : List NewUserItem,
      (∀ it ∈ A, goodNew it = true) → (∀ it ∈ B, goodNew it = true) →
      ∃ arrAB arrBA,
        applyMerges [A, B] = .ok arrAB ∧ applyMerges [B, A] = .ok arrBA ∧
        (∀ u, present arrAB u ↔ present arrBA u) ∧
        (∀ u i, ipMem arrAB u i ↔ ipMem arrBA u i)) := by
  constructor
  · intro arr uid ip hc
    have hgood : ∀ it ∈ [NewUserItem.dict uid (some (.s ip))], goodNew it = true := by
      intro it hit
      rcases List.mem_singleton.mp hit with rfl
      rfl
    obtain ⟨arr1, h1, hc1, hnd1, hpres1, hip1⟩ := save_users_tag_ok hc hgood
    obtain ⟨arr2, h2, hc2, hnd2, hpres2, hip2⟩ := save_users_tag_ok hc1 hgood
    refine ⟨arr1, arr2, h1, h2, ?_, ?_⟩
    · intro u
      rw [hpres2 u]
      constructor
      · rintro (hp | ⟨it, hit, he⟩)
        · exact hp
        · rcases List.mem_singleton.mp hit with rfl
          rw [hpres1 u]
          exact Or.inr ⟨_, List.mem_singleton_self _, he⟩
      · exact Or.inl
    · intro u i
      rw [hip2 u i]
      constructor
      · rintro (hp | ⟨it, hit, he⟩)
        · exact hp
        · rcases List.mem_singleton.mp hit with rfl
          rw [hip1 u i]
          exact Or.inr ⟨_, List.mem_singleton_self _, he⟩
      · exact Or.inl
  · intro A B hA hB
    have hgAB : ∀ us ∈ [A, B], ∀ it ∈ us, goodNew it = true := by
      intro us hus
      rcases List.mem_cons.mp hus with rfl | hus
      · exact hA
      · rcases List.mem_singleton.mp hus with rfl
        exact hB
    have hgBA : ∀ us ∈ [B, A], ∀ it ∈ us, goodNew it = true := by
      intro us hus
      rcases List.mem_cons.mp hus with rfl | hus
      · exact hB
      · rcases List.mem_singleton.mp hus with rfl
        exact hA
    obtain ⟨arrAB, hAB, _, _, hpresAB, hipAB⟩ := applyMerges_spec [A, B] hgAB
    obtain ⟨arrBA, hBA, _, _, hpresBA, hipBA⟩ := applyMerges_spec [B, A] hgBA
    have hswap : ∀ us : List NewUserItem, us ∈ [A, B] ↔ us ∈ [B, A] := by
      intro us
      constructor
      · rintro h
        rcases List.mem_cons.mp h with rfl | h
        · exact List.mem_cons_of_mem _ (List.mem_singleton_self _)
        · rcases List.mem_singleton.mp h with rfl
          exact List.mem_cons_self _ _
      · rintro h
        rcases List.mem_cons.mp h with rfl | h
        · exact List.mem_cons_of_mem _ (List.mem_singleton_self _)
        · rcases List.mem_singleton.mp h with rfl
          exact List.mem_cons_self _ _
    refine ⟨arrAB, arrBA, hAB, hBA, ?_, ?_⟩
    · intro u
      rw [hpresAB u, hpresBA u]
      constructor
      · rintro ⟨us, hus, h⟩
        exact ⟨us, (hswap us).mp hus, h⟩
      · rintro ⟨us, hus, h⟩
        exact ⟨us, (hswap us).mpr hus, h⟩
    · intro u i
      rw [hipAB u i, hipBA u i]
      simp only [recordedIn]
      constructor
      · rintro ⟨us, hus, h⟩
        exact ⟨us, (hswap us).mp hus, h⟩
      · rintro ⟨us, hus, h⟩
        exact ⟨us, (hswap us).mpr hus, h⟩

/-- C7 witness: idempotence on a concrete canonical array and
commutativity on two concrete batches. -/
theorem merge_idempotent_commutative_witness :
    (∃ arr1 arr2,
      save_users_tag (some [.dict "U1" (some (.ipList ["9.9.9.9"]))])
          (some [.dict "U1" (some (.s "1.2.3.4"))]) = .ok arr1 ∧
      save_users_tag (some arr1) (some [.dict "U1" (some (.s "1.2.3.4"))]) = .ok arr2 ∧
      (∀ u, present arr2 u ↔ present arr1 u) ∧
      (∀ u i, ipMem arr2 u i ↔ ipMem arr1 u i)) ∧
    (∃ arrAB arrBA,
      applyMerges [[.dict "U1" (some (.s "1.2.3.4"))], [.legacy "U2"]] = .ok arrAB ∧
      applyMerges [[.legacy "U2"], [.dict "U1" (some (.s "1.2.3.4"))]] = .ok arrBA ∧
      (∀ u, present arrAB u ↔ present arrBA u) ∧
      (∀ u i, ipMem arrAB u i ↔ ipMem arrBA u i)) :=
  ⟨merge_idempotent_commutative.1 [.dict "U1" (some (.ipList ["9.9.9.9"]))]
      "U1" "1.2.3.4" (by decide),
    merge_idempotent_commutative.2 [.dict "U1" (some (.s "1.2.3.4"))]
      [.legacy "U2"] (by decide) (by decide)⟩

/-- C8: a stored bare-string user item is treated exactly as
`{U: item, IP: []}`: `get_users` reads it back as that userId with an
empty IP set, replacing it by the structured empty form changes neither
`get_users` nor a subsequent merge, and merging a structured entry for
the same userId unions its IP with the bare string's empty set. -/
theorem legacy_bare_string_equiv :
    (∀ (tag u : String), get_users [(tag, [.legacy u])] = [(u, [])]) ∧
    (∀ (c1 : List (String × List UserItem)) (tag : String)
        (a1 : List UserItem) (u : String) (a2 : List UserItem)
        (c2 : List (String × List UserItem)),
      get_users (c1 ++ (tag, a1 ++ .legacy u :: a2) :: c2) =
        get_users (c1 ++ (tag, a1 ++ .dict u (some (.ipList [])) :: a2) :: c2)) ∧
    (∀ (pre : List UserItem) (u : String) (post : List UserItem)
        (users : Option (List NewUserItem)),
      save_users_tag (some (pre ++ .legacy u :: post)) users =
        save_users_tag (some (pre ++ .dict u (some (.ipList [])) :: post)) users) ∧
    (save_users_tag (some [.legacy "u"]) (some [.dict "u" (some (.s "1.2.3.4"))]) =
      .ok [.dict "u" (some (.ipList ["1.2.3.4"]))]) := by
  have hview : ∀ u : String,
      itemView (.legacy u) = itemView (.dict u (some (.ipList []))) := fun u => rfl
  have hexp : ∀ u : String,
      expandStored (.legacy u) = expandStored (.dict u (some (.ipList []))) :=
    fun u => rfl
  refine ⟨fun tag u => rfl, ?_, ?_, rfl⟩
  · intro c1 tag a1 u a2 c2
    simp only [get_users, List.foldl_append, List.foldl_cons]
    rw [getUsersStep_congr (hview u)]
  · intro pre u post users
    simp only [save_users_tag, readExisting, readRecords]
    rw [readRecordsAux_congr pre (hexp u) post]

/-! ### Claim theorems: the trimmed statistic -/

theorem two_le_decomp {α : Type} (s : List α) (h : 2 ≤ s.length) :
    ∃ (L : α) (mid : List α) (R : α), s = L :: mid ++ [R] := by
  cases s with
  | nil => simp at h
  | cons L s1 =>
      have h1 : s1 ≠ [] := by
        intro he
        rw [he] at h
        simp at h
      refine ⟨L, s1.dropLast, s1.getLast h1, ?_⟩
      exact congrArg (L :: ·) (List.dropLast_append_getLast h1).symm

/-- C3: `math_stat` renders short sample lists raw with their count;
with three or more samples it sorts, drops the single minimum `L` and
single maximum `R`, brackets the mean of the remainder
`(sum - L - R) / (count - 2)`, and keeps the untrimmed count.  The two
concrete examples of the spec evaluate as stated. -/
theorem math_stat_spec :
    (∀ l : List ℚ, l.length < 3 → math_stat l = (strList l, l.length)) ∧
    (∀ l : List ℚ, 3 ≤ l.length →
      ∃ L R : ℚ, L ∈ l ∧ R ∈ l ∧ (∀ x ∈ l, L ≤ x ∧ x ≤ R) ∧
        math_stat l = (formatF L ++ " ... [" ++
          formatF ((l.sum - L - R) / ((l.length : ℚ) - 2)) ++ "] ... " ++
          formatF R, l.length)) ∧
    math_stat [1, 2, 3] = ("1.000000 ... [2.000000] ... 3.000000", 3) ∧
    math_stat [5] = ("[5]", 1) := by
  refine ⟨?_, ?_, by with_unfolding_all rfl, by with_unfolding_all rfl⟩
  · intro l h
    simp only [math_stat]
    rw [if_pos h]
  · intro l h3
    have hperm : (l.insertionSort (· ≤ ·)).Perm l := List.perm_insertionSort _ l
    have hsort : List.Sorted (· ≤ ·) (l.insertionSort (· ≤ ·)) :=
      List.sorted_insertionSort _ l
    have h2 : 2 ≤ (l.insertionSort (· ≤ ·)).length := by
      rw [hperm.length_eq]
      omega
    obtain ⟨L, mid, R, hs⟩ := two_le_decomp _ h2
    rw [hs] at hperm hsort
    have hlen : mid.length + 2 = l.length := by
      have := hperm.length_eq
      simp only [List.length_cons, List.length_append, List.length_singleton,
        List.length_nil] at this
      omega
    have hsort2 : List.Sorted (· ≤ ·) ((L :: mid) ++ [R]) := hsort
    obtain ⟨hp1, hp2, hp3⟩ := List.pairwise_append.mp hsort2
    have hLmem : L ∈ l := hperm.mem_iff.mp (List.mem_cons_self _ _)
    have hRmem : R ∈ l := hperm.mem_iff.mp (by simp)
    have hbounds : ∀ x ∈ l, L ≤ x ∧ x ≤ R := by
      intro x hx
      have hx' : x ∈ L :: mid ++ [R] := hperm.mem_iff.mpr hx
      constructor
      · rcases List.mem_cons.mp hx' with rfl | hx'
        · exact le_refl x
        · exact List.rel_of_sorted_cons hsort x hx'
      · have hx2 : x ∈ (L :: mid) ++ [R] := hx'
        rcases List.mem_append.mp hx2 with hx2 | hx2
        · exact hp3 x hx2 R (List.mem_singleton_self _)
        · rw [List.mem_singleton.mp hx2]
    have hsum : mid.sum = l.sum - L - R := by
      have hp := hperm.sum_eq
      simp only [List.sum_cons, List.sum_append, List.sum_singleton,
        List.sum_nil] at hp
      linarith
    have hlenq : (mid.length : ℚ) = (l.length : ℚ) - 2 := by
      have h := congrArg (fun n : ℕ => (n : ℚ)) hlen
      push_cast at h
      linarith
    have hlast : (L :: mid ++ [R]).getLastD 0 = R := by
      rw [show L :: mid ++ [R] = (L :: mid) ++ [R] from rfl, List.getLastD_concat]
    have hdrop : (L :: mid ++ [R]).dropLast = L :: mid := by
      rw [show L :: mid ++ [R] = (L :: mid) ++ [R] from rfl, List.dropLast_concat]
    refine ⟨L, R, hLmem, hRmem, hbounds, ?_⟩
    simp only [math_stat]
    rw [if_neg (not_lt.mpr h3), hs, hlast, hdrop]
    simp only [List.headD_cons, List.drop_one, List.tail_cons]
    rw [hsum, hlenq]

/-- C3 witness: the two boundary cases of the claim, through the general
statement. -/
theorem math_stat_spec_witness :
    math_stat [5] = (strList [5], [(5 : ℚ)].length) ∧
    ∃ L R : ℚ, L ∈ [(1 : ℚ), 2, 3] ∧ R ∈ [(1 : ℚ), 2, 3] ∧
      (∀ x ∈ [(1 : ℚ), 2, 3], L ≤ x ∧ x ≤ R) ∧
      math_stat [1, 2, 3] = (formatF L ++ " ... [" ++
        formatF (([(1 : ℚ), 2, 3].sum - L - R) /
          (([(1 : ℚ), 2, 3].length : ℚ) - 2)) ++ "] ... " ++
        formatF R, [(1 : ℚ), 2, 3].length) :=
  ⟨math_stat_spec.1 [5] (by decide), math_stat_spec.2.1 [1, 2, 3] (by decide)⟩

/-! ### Claim theorems: speed grouping -/

/-- C6: two stored speed items agreeing on station, client, provider and
userId land in one bucket whose sample list has length two, while a
second item whose provider (or userId) differs from the non-null value
already pinned on an otherwise matching bucket starts a new bucket. -/
theorem speed_grouping :
    (∀ (tag : String) (st : Option String) (cl : String)
        (uid prov : Option String) (r1 r2 : ℚ), 0 < r1 → 0 < r2 →
      get_speeds [(tag, [⟨uid, prov, st, some (.str cl), some r1⟩,
          ⟨uid, prov, st, some (.str cl), some r2⟩])] =
        .ok [⟨st, some ((cl.splitOn ":").headD ""), uid, prov, [r1, r2]⟩]) ∧
    (∀ (tag : String) (st : Option String) (cl : String)
        (uid : Option String) (p1 p2 : String) (r1 r2 : ℚ),
        0 < r1 → 0 < r2 → p1 ≠ p2 →
      get_speeds [(tag, [⟨uid, some p1, st, some (.str cl), some r1⟩,
          ⟨uid, some p2, st, some (.str cl), some r2⟩])] =
        .ok [⟨st, some ((cl.splitOn ":").headD ""), uid, some p1, [r1]⟩,
          ⟨st, some ((cl.splitOn ":").headD ""), uid, some p2, [r2]⟩]) ∧
    (∀ (tag : String) (st : Option String) (cl : String)
        (prov : Option String) (u1 u2 : String) (r1 r2 : ℚ),
        0 < r1 → 0 < r2 → u1 ≠ u2 →
      get_speeds [(tag, [⟨some u1, prov, st, some (.str cl), some r1⟩,
          ⟨some u2, prov, st, some (.str cl), some r2⟩])] =
        .ok [⟨st, some ((cl.splitOn ":").headD ""), some u1, prov, [r1]⟩,
          ⟨st, some ((cl.splitOn ":").headD ""), some u2, prov, [r2]⟩]) := by
  refine ⟨?_, ?_, ?_⟩
  · intro tag st cl uid prov r1 r2 hr1 hr2
    cases uid <;> cases prov <;>
      simp [get_speeds, getSpeedsAux, speedFold, speedStep, clientIpOf,
        addSample, speedMatch, applySpeedUpd, not_le.mpr hr1, not_le.mpr hr2]
  · intro tag st cl uid p1 p2 r1 r2 hr1 hr2 hne
    cases uid <;>
      simp [get_speeds, getSpeedsAux, speedFold, speedStep, clientIpOf,
        addSample, speedMatch, applySpeedUpd, not_le.mpr hr1, not_le.mpr hr2, hne]
  · intro tag st cl prov u1 u2 r1 r2 hr1 hr2 hne
    cases prov <;>
      simp [get_speeds, getSpeedsAux, speedFold, speedStep, clientIpOf,
        addSample, speedMatch, applySpeedUpd, not_le.mpr hr1, not_le.mpr hr2, hne]

/-- C6 witness: concrete samples joining one bucket, and provider and
user conflicts each forcing a second bucket. -/
theorem speed_grouping_witness :
    get_speeds [("t", [⟨some "u", some "p", some "s:9", some (.str "1.2.3.4:80"), some 1⟩,
        ⟨some "u", some "p", some "s:9", some (.str "1.2.3.4:80"), some 2⟩])] =
      .ok [⟨some "s:9", some (("1.2.3.4:80".splitOn ":").headD ""), some "u",
        some "p", [1, 2]⟩] ∧
    get_speeds [("t", [⟨some "u", some "p1", some "s:9", some (.str "1.2.3.4:80"), some 1⟩,
        ⟨some "u", some "p2", some "s:9", some (.str "1.2.3.4:80"), some 2⟩])] =
      .ok [⟨some "s:9", some (("1.2.3.4:80".splitOn ":").headD ""), some "u",
          some "p1", [1]⟩,
        ⟨some "s:9", some (("1.2.3.4:80".splitOn ":").headD ""), some "u",
          some "p2", [2]⟩] ∧
    get_speeds [("t", [⟨some "u1", some "p", some "s:9", some (.str "1.2.3.4:80"), some 1⟩,
        ⟨some "u2", some "p", some "s:9", some (.str "1.2.3.4:80"), some 2⟩])] =
      .ok [⟨some "s:9", some (("1.2.3.4:80".splitOn ":").headD ""), some "u1",
          some "p", [1]⟩,
        ⟨some "s:9", some (("1.2.3.4:80".splitOn ":").headD ""), some "u2",
          some "p", [2]⟩] :=
  ⟨speed_grouping.1 "t" (some "s:9") "1.2.3.4:80" (some "u") (some "p") 1 2
      (by decide) (by decide),
    speed_grouping.2.1 "t" (some "s:9") "1.2.3.4:80" (some "u") "p1" "p2" 1 2
      (by decide) (by decide) (by decide),
    speed_grouping.2.2 "t" (some "s:9") "1.2.3.4:80" (some "p") "u1" "u2" 1 2
      (by decide) (by decide) (by decide)⟩

/-! ### Helper lemmas: the worker step -/

theorem process_nonempty (lt : ℚ → LocalTime) (c : StatConfig) (now : ℚ)
    (st : RecState) (content : Content) (rest : List Content)
    (hq : st.contents = content :: rest) :
    ∃ st2 o, process lt c now st = (true, st2, o) ∧ st2.contents = rest := by
  obtain ⟨contents, ustore, sstore, pstore⟩ := st
  simp only at hq
  subst hq
  cases ht : content.time with
  | none =>
      simp only [process, ht]
      exact ⟨_, _, rfl, rfl⟩
  | some t =>
      simp only [process, ht]
      by_cases hexp : t < now - 3600 * 24 * 7
      · rw [if_pos hexp]
        exact ⟨_, _, rfl, rfl⟩
      · rw [if_neg hexp]
        by_cases h1 : content.module = "users"
        · rw [if_pos h1]
          cases save_users lt c ustore t content.users with
          | ok s => exact ⟨_, _, rfl, rfl⟩
          | error e => exact ⟨_, _, rfl, rfl⟩
        · rw [if_neg h1]
          by_cases h2 : content.module = "stats"
          · rw [if_pos h2]
            cases save_stats lt c sstore t content.stats with
            | ok s => exact ⟨_, _, rfl, rfl⟩
            | error e => exact ⟨_, _, rfl, rfl⟩
          · rw [if_neg h2]
            by_cases h3 : content.module = "speeds"
            · rw [if_pos h3]
              cases save_speeds lt c pstore t content.U content.provider
                  content.stations (match content.remote_address with
                    | some (.pair h p) => some (h ++ ":" ++ toString p)
                    | some (.str s) => some s
                    | none => none) with
              | ok s => exact ⟨_, _, rfl, rfl⟩
              | error e => exact ⟨_, _, rfl, rfl⟩
            · rw [if_neg h3]
              exact ⟨_, _, rfl, rfl⟩

theorem process_users_save_error (lt : ℚ → LocalTime) (c : StatConfig)
    (now : ℚ) (st : RecState) (content : Content) (rest : List Content)
    (t : ℚ) (e : String)
    (hq : st.contents = content :: rest) (ht : content.time = some t)
    (hexp : ¬ t < now - 3600 * 24 * 7) (hmod : content.module = "users")
    (hsave : save_users lt c st.users_store t content.users = .error e) :
    process lt c now st =
      (true, { st with contents := rest }, .dispatched "users" false) := by
  obtain ⟨contents, ustore, sstore, pstore⟩ := st
  simp only at hq hsave
  subst hq
  simp only [process, ht]
  rw [if_neg hexp, hmod, if_pos rfl, hsave]

theorem process_stats_save_error (lt : ℚ → LocalTime) (c : StatConfig)
    (now : ℚ) (st : RecState) (content : Content) (rest : List Content)
    (t : ℚ) (e : String)
    (hq : st.contents = content :: rest) (ht : content.time = some t)
    (hexp : ¬ t < now - 3600 * 24 * 7) (hmod : content.module = "stats")
    (hsave : save_stats lt c st.stats_store t content.stats = .error e) :
    process lt c now st =
      (true, { st with contents := rest }, .dispatched "stats" false) := by
  obtain ⟨contents, ustore, sstore, pstore⟩ := st
  simp only at hq hsave
  subst hq
  simp only [process, ht]
  rw [if_neg hexp, hmod, if_neg (by decide), if_pos rfl, hsave]

theorem process_speeds_save_error (lt : ℚ → LocalTime) (c : StatConfig)
    (now : ℚ) (st : RecState) (content : Content) (rest : List Content)
    (t : ℚ) (e : String)
    (hq : st.contents = content :: rest) (ht : content.time = some t)
    (hexp : ¬ t < now - 3600 * 24 * 7) (hmod : content.module = "speeds")
    (hsave : save_speeds lt c st.speeds_store t content.U content.provider
      content.stations (match content.remote_address with
        | some (.pair h p) => some (h ++ ":" ++ toString p)
        | some (.str s) => some s
        | none => none) = .error e) :
    process lt c now st =
      (true, { st with contents := rest }, .dispatched "speeds" false) := by
  obtain ⟨contents, ustore, sstore, pstore⟩ := st
  simp only at hq hsave
  subst hq
  simp only [process, ht]
  rw [if_neg hexp, hmod, if_neg (by decide), if_neg (by decide), if_pos rfl, hsave]

theorem save_users_tag_bad {us : List NewUserItem}
    (hbad : ∃ it ∈ us, hasListIP it = true) (array? : Option (List UserItem)) :
    ∃ e, save_users_tag array? (some us) = .error e := by
  cases hre : readExisting array? with
  | error e => exact ⟨e, by simp only [save_users_tag, hre]⟩
  | ok rs =>
      obtain ⟨e, he⟩ := addNewUsers_fails hbad rs
      exact ⟨e, by simp only [save_users_tag, hre, he]⟩

theorem save_users_bad_entry {us : List NewUserItem}
    (hbad : ∃ it ∈ us, hasListIP it = true) (lt : ℚ → LocalTime)
    (c : StatConfig) (store : Store UserItem) (t : ℚ) :
    ∃ e, save_users lt c store t (some us) = .error e := by
  cases hp : get_path lt c "users_log" t with
  | error e => exact ⟨e, by simp only [save_users, hp]⟩
  | ok log_path =>
      obtain ⟨e, he⟩ := save_users_tag_bad hbad
        (alook ((alook store log_path).getD []) (make_tag (parse_time lt t)))
      exact ⟨e, by simp only [save_users, hp, he]⟩

/-! ### Claim theorems: the worker loop -/

/-- C2: a popped record whose timestamp is strictly older than seven
days is discarded (the state keeps only the shortened queue, nothing is
persisted); a record at or after the boundary with a known module is
dispatched to its kind-specific persistence routine. -/
theorem retention_boundary (lt : ℚ → LocalTime) (c : StatConfig) (now : ℚ)
    (st : RecState) (content : Content) (rest : List Content) (t : ℚ)
    (hq : st.contents = content :: rest) (ht : content.time = some t) :
    (t < now - 3600 * 24 * 7 →
      process lt c now st = (true, { st with contents := rest }, .expired)) ∧
    (¬ t < now - 3600 * 24 * 7 →
      ∀ mod ∈ (["users", "stats", "speeds"] : List String),
        content.module = mod →
        ∃ ok st2, process lt c now st = (true, st2, .dispatched mod ok) ∧
          st2.contents = rest) := by
  obtain ⟨contents, ustore, sstore, pstore⟩ := st
  simp only at hq
  subst hq
  constructor
  · intro hexp
    simp only [process, ht]
    rw [if_pos hexp]
  · intro hexp mod hmem hmod
    simp only [process, ht]
    rw [if_neg hexp, hmod]
    simp only [List.mem_cons, List.not_mem_nil, or_false] at hmem
    rcases hmem with rfl | rfl | rfl
    · rw [if_pos rfl]
      cases save_users lt c ustore t content.users with
      | ok s => exact ⟨true, _, rfl, rfl⟩
      | error e => exact ⟨false, _, rfl, rfl⟩
    · rw [if_neg (by decide), if_pos rfl]
      cases save_stats lt c sstore t content.stats with
      | ok s => exact ⟨true, _, rfl, rfl⟩
      | error e => exact ⟨false, _, rfl, rfl⟩
    · rw [if_neg (by decide), if_neg (by decide), if_pos rfl]
      cases save_speeds lt c pstore t content.U content.provider
          content.stations (match content.remote_address with
            | some (.pair h p) => some (h ++ ":" ++ toString p)
            | some (.str s) => some s
            | none => none) with
      | ok s => exact ⟨true, _, rfl, rfl⟩
      | error e => exact ⟨false, _, rfl, rfl⟩

/-- C2 witness: with `now = 1000000` the record at `395199` (one second
past seven days) is discarded, and the record at exactly `395200`
(`now - 7 days`) is dispatched. -/
theorem retention_boundary_witness :
    process (fun _ => ⟨2026, 1, 2, 3, 4⟩) ⟨none, none, none⟩ 1000000
        ⟨[⟨some 395199, "users", none, none, none, none, none, none⟩], [], [], []⟩ =
      (true, { (⟨[⟨some 395199, "users", none, none, none, none, none, none⟩],
          [], [], []⟩ : RecState) with contents := [] }, .expired) ∧
    ∃ ok st2, process (fun _ => ⟨2026, 1, 2, 3, 4⟩) ⟨none, none, none⟩ 1000000
        ⟨[⟨some 395200, "users", none, none, none, none, none, none⟩], [], [], []⟩ =
      (true, st2, .dispatched "users" ok) ∧ st2.contents = [] :=
  ⟨(retention_boundary _ _ 1000000 _ _ [] 395199 rfl rfl).1 (by norm_num),
    (retention_boundary _ _ 1000000 _ _ [] 395200 rfl rfl).2 (by norm_num)
      "users" (by decide) rfl⟩

/-- C9: popping any record returns `True` (the worker stays productive)
with the record removed from the queue and never re-enqueued, and an
exception from any of the three kind-specific save routines is caught:
the step still returns `True` and leaves every store unchanged. -/
theorem worker_catches_errors (lt : ℚ → LocalTime) (c : StatConfig)
    (now : ℚ) (st : RecState) (content : Content) (rest : List Content)
    (hq : st.contents = content :: rest) :
    (process lt c now st).1 = true ∧
    (process lt c now st).2.1.contents = rest ∧
    (∀ t e, content.time = some t → ¬ t < now - 3600 * 24 * 7 →
      content.module = "users" →
      save_users lt c st.users_store t content.users = .error e →
      process lt c now st =
        (true, { st with contents := rest }, .dispatched "users" false)) ∧
    (∀ t e, content.time = some t → ¬ t < now - 3600 * 24 * 7 →
      content.module = "stats" →
      save_stats lt c st.stats_store t content.stats = .error e →
      process lt c now st =
        (true, { st with contents := rest }, .dispatched "stats" false)) ∧
    (∀ t e, content.time = some t → ¬ t < now - 3600 * 24 * 7 →
      content.module = "speeds" →
      save_speeds lt c st.speeds_store t content.U content.provider
        content.stations (match content.remote_address with
          | some (.pair h p) => some (h ++ ":" ++ toString p)
          | some (.str s) => some s
          | none => none) = .error e →
      process lt c now st =
        (true, { st with contents := rest }, .dispatched "speeds" false)) := by
  obtain ⟨st2, o, hp, hrest⟩ := process_nonempty lt c now st content rest hq
  refine ⟨by rw [hp], by rw [hp]; exact hrest, ?_, ?_, ?_⟩
  · intro t e ht hexp hmod hsave
    exact process_users_save_error lt c now st content rest t e hq ht hexp hmod hsave
  · intro t e ht hexp hmod hsave
    exact process_stats_save_error lt c now st content rest t e hq ht hexp hmod hsave
  · intro t e ht hexp hmod hsave
    exact process_speeds_save_error lt c now st content rest t e hq ht hexp hmod hsave

/-- C9 witness: a failing users save (missing payload) is caught; the
step returns `True`, pops the record, and changes no store. -/
theorem worker_catches_errors_witness :
    (process (fun _ => ⟨2026, 1, 2, 3, 4⟩) ⟨some "u-{yyyy}", some "s", some "p"⟩ 0
        ⟨[⟨some 0, "users", none, none, none, none, none, none⟩], [], [], []⟩).1 = true ∧
    (process (fun _ => ⟨2026, 1, 2, 3, 4⟩) ⟨some "u-{yyyy}", some "s", some "p"⟩ 0
        ⟨[⟨some 0, "users", none, none, none, none, none, none⟩], [], [], []⟩).2.1.contents = [] ∧
    process (fun _ => ⟨2026, 1, 2, 3, 4⟩) ⟨some "u-{yyyy}", some "s", some "p"⟩ 0
        ⟨[⟨some 0, "users", none, none, none, none, none, none⟩], [], [], []⟩ =
      (true, { (⟨[⟨some 0, "users", none, none, none, none, none, none⟩],
          [], [], []⟩ : RecState) with contents := [] }, .dispatched "users" false) := by
  have h := worker_catches_errors (fun _ => ⟨2026, 1, 2, 3, 4⟩)
    ⟨some "u-{yyyy}", some "s", some "p"⟩ 0
    ⟨[⟨some 0, "users", none, none, none, none, none, none⟩], [], [], []⟩
    ⟨some 0, "users", none, none, none, none, none, none⟩ [] rfl
  exact ⟨h.1, h.2.1, h.2.2.1 0 "TypeError: NoneType object is not iterable"
    rfl (by norm_num) rfl rfl⟩

/-- C4 counterexample: with the `users_log` template missing from the
configuration, the worker still pops a `users` record, the per-record
assertion failure is caught, the step returns `True` and the worker
keeps running — the missing template manifests exactly as a logged,
tolerated per-record failure, not as a startup-fatal error. -/
theorem missing_template_not_fatal_counterexample :
    process (fun _ => ⟨2026, 1, 2, 3, 4⟩) ⟨none, some "s", some "p"⟩ 0
        ⟨[⟨some 0, "users", some [], none, none, none, none, none⟩], [], [], []⟩ =
      (true, ⟨[], [], [], []⟩, .dispatched "users" false) := by
  have hsave : save_users (fun _ => ⟨2026, 1, 2, 3, 4⟩)
      ⟨none, some "s", some "p"⟩ ([] : Store UserItem) 0 (some []) =
      .error "AssertionError: failed to get log path template" := rfl
  exact process_users_save_error _ _ 0 _ _ [] 0 _ rfl rfl (by norm_num) rfl hsave

/-- C4 (amended): a missing path template — for any of the three log
kinds `users_log`, `stats_log`, `speeds_log` — is detected only when a
record of that kind is processed: `_get_path`'s assertion fails, the
worker catches and logs the exception, keeps every store unchanged and
continues with the next iteration — it is a tolerated per-record
failure, not a startup-fatal configuration error. -/
theorem missing_template_tolerated (lt : ℚ → LocalTime) (c : StatConfig)
    (now : ℚ) (st : RecState) (content : Content) (rest : List Content)
    (t : ℚ)
    (hq : st.contents = content :: rest) (ht : content.time = some t)
    (hexp : ¬ t < now - 3600 * 24 * 7) :
    (content.module = "users" → c.users_log = none →
      process lt c now st =
        (true, { st with contents := rest }, .dispatched "users" false)) ∧
    (content.module = "stats" → c.stats_log = none →
      process lt c now st =
        (true, { st with contents := rest }, .dispatched "stats" false)) ∧
    (content.module = "speeds" → c.speeds_log = none →
      process lt c now st =
        (true, { st with contents := rest }, .dispatched "speeds" false)) := by
  refine ⟨?_, ?_, ?_⟩
  · intro hmod hcfg
    have hcfg' : configOption c "users_log" = none := hcfg
    have hp : get_path lt c "users_log" t =
        .error "AssertionError: failed to get log path template" := by
      simp only [get_path, hcfg']
    have hsave : save_users lt c st.users_store t content.users =
        .error "AssertionError: failed to get log path template" := by
      simp only [save_users, hp]
    exact process_users_save_error lt c now st content rest t _ hq ht hexp hmod hsave
  · intro hmod hcfg
    have hcfg' : configOption c "stats_log" = none := hcfg
    have hp : get_path lt c "stats_log" t =
        .error "AssertionError: failed to get log path template" := by
      simp only [get_path, hcfg']
    have hsave : save_stats lt c st.stats_store t content.stats =
        .error "AssertionError: failed to get log path template" := by
      simp only [save_stats, hp]
    exact process_stats_save_error lt c now st content rest t _ hq ht hexp hmod hsave
  · intro hmod hcfg
    have hcfg' : configOption c "speeds_log" = none := hcfg
    have hp : get_path lt c "speeds_log" t =
        .error "AssertionError: failed to get log path template" := by
      simp only [get_path, hcfg']
    have hsave : save_speeds lt c st.speeds_store t content.U content.provider
        content.stations (match content.remote_address with
          | some (.pair h p) => some (h ++ ":" ++ toString p)
          | some (.str s) => some s
          | none => none) =
        .error "AssertionError: failed to get log path template" := by
      simp only [save_speeds, hp]
    exact process_speeds_save_error lt c now st content rest t _ hq ht hexp hmod hsave

/-- C4 witness: the amended behavior at concrete states, one per log
kind with that kind's template missing. -/
theorem missing_template_tolerated_witness :
    process (fun _ => ⟨2026, 1, 2, 3, 4⟩) ⟨none, some "s", some "p"⟩ 0
        ⟨[⟨some 0, "users", some [.dict "u" (some (.s "1.1.1.1"))], none, none,
          none, none, none⟩], [], [], []⟩ =
      (true, { (⟨[⟨some 0, "users", some [.dict "u" (some (.s "1.1.1.1"))], none,
          none, none, none, none⟩], [], [], []⟩ : RecState) with
        contents := [] }, .dispatched "users" false) ∧
    process (fun _ => ⟨2026, 1, 2, 3, 4⟩) ⟨some "u", none, some "p"⟩ 0
        ⟨[⟨some 0, "stats", none, some [⟨some 1, some 2, some 3⟩], none,
          none, none, none⟩], [], [], []⟩ =
      (true, { (⟨[⟨some 0, "stats", none, some [⟨some 1, some 2, some 3⟩], none,
          none, none, none⟩], [], [], []⟩ : RecState) with
        contents := [] }, .dispatched "stats" false) ∧
    process (fun _ => ⟨2026, 1, 2, 3, 4⟩) ⟨some "u", some "s", none⟩ 0
        ⟨[⟨some 0, "speeds", none, none, some "sender", some "prov",
          some [⟨"h", 9, some 1⟩], some (.str "1.2.3.4:80")⟩], [], [], []⟩ =
      (true, { (⟨[⟨some 0, "speeds", none, none, some "sender", some "prov",
          some [⟨"h", 9, some 1⟩], some (.str "1.2.3.4:80")⟩], [], [], []⟩ :
          RecState) with
        contents := [] }, .dispatched "speeds" false) :=
  ⟨(missing_template_tolerated _ _ 0 _ _ [] 0 rfl rfl (by norm_num)).1 rfl rfl,
    (missing_template_tolerated _ _ 0 _ _ [] 0 rfl rfl (by norm_num)).2.1 rfl rfl,
    (missing_template_tolerated _ _ 0 _ _ [] 0 rfl rfl (by norm_num)).2.2 rfl rfl⟩

/-- C10: an incoming `users` entry whose `IP` field is a list makes
`_save_users` raise (`records.add` of an unhashable pair); the worker
catches the exception, the record is dropped whole, and nothing from it
— its other entries included — is persisted: every store is left
unchanged and only the queue shrinks. -/
theorem list_ip_drops_record (lt : ℚ → LocalTime) (c : StatConfig)
    (now : ℚ) (st : RecState) (content : Content) (rest : List Content)
    (t : ℚ) (us : List NewUserItem)
    (hq : st.contents = content :: rest) (ht : content.time = some t)
    (hexp : ¬ t < now - 3600 * 24 * 7) (hmod : content.module = "users")
    (hus : content.users = some us)
    (hbad : ∃ it ∈ us, hasListIP it = true) :
    process lt c now st =
      (true, { st with contents := rest }, .dispatched "users" false) := by
  obtain ⟨e, he⟩ := save_users_bad_entry hbad lt c st.users_store t
  refine process_users_save_error lt c now st content rest t e hq ht hexp hmod ?_
  rw [hus]
  exact he

/-- C10 witness: a record holding a good entry and a list-IP entry is
dropped whole; the stores stay empty. -/
theorem list_ip_drops_record_witness :
    process (fun _ => ⟨2026, 1, 2, 3, 4⟩) ⟨some "u-{yyyy}", some "s", some "p"⟩ 0
        ⟨[⟨some 0, "users", some [.dict "good" (some (.s "1.1.1.1")),
            .dict "bad" (some (.l ["2.2.2.2", "3.3.3.3"]))], none, none, none,
          none, none⟩], [], [], []⟩ =
      (true, { (⟨[⟨some 0, "users", some [.dict "good" (some (.s "1.1.1.1")),
          .dict "bad" (some (.l ["2.2.2.2", "3.3.3.3"]))], none, none, none,
          none, none⟩], [], [], []⟩ : RecState) with
        contents := [] }, .dispatched "users" false) :=
  list_ip_drops_record _ _ 0 _ _ [] 0 _ rfl rfl (by norm_num) rfl rfl
    (by decide)

end StatBot
